import Mathlib

/-!
Verification development for the CODE_MARK PII pipeline
(`layer1_scanner/scanner.py`, `layer1_linker/linker.py`,
`layer1_mapper/mapper.py`).

The Python code is shallowly embedded:

* a PII fragment (the dicts produced by `scan_text`) becomes the
  structure `Fragment`;
* `difflib.SequenceMatcher.ratio` is embedded as `ratioOf`, computed by
  the Ratcliff/Obershelp matching-block algorithm (`findLongestMatch`,
  `matchSum`).  The strings involved are far below 200 characters, so
  Python's autojunk heuristic never fires and is omitted;
* `cluster_fragments` becomes a fold (`clusterStep`) over the indexed
  fragment list, keeping the clusters (`entity_groups`), the
  index-keyed mapping, and the entity counter exactly as the Python
  loop does;
* the SQLite store of `mapper.py` becomes the record `DB` holding the
  three tables as lists of rows.  `datetime.utcnow()` is modelled by an
  explicit `ts : Nat` argument to each mutating operation, and
  `uuid.uuid4()` (assumed collision-free) by a fresh-id counter
  `nextId` threaded through the store;
* SQL `LIKE` (with its `%`/`_` wildcards and ASCII case folding) is
  embedded as `likeMatch`.

Character classes of the Python regexes (`\w`, `\d`, whitespace in
`str.strip`, `str.lower`) are taken at their ASCII meaning; no theorem
below depends on non-ASCII code points.  Python floats (similarity
ratios, confidences, thresholds) are idealised as exact rationals
(`ℚ`); the concrete values arising in the claims are exactly
representable either way.
-/

/-- A detected PII fragment: the dicts `{"type": .., "value": .., "source": ..}`
built by `scan_text` in `layer1_scanner/scanner.py`. -/
structure Fragment where
  type : String
  value : String
  source : String
deriving DecidableEq, Repr

/-! ### SequenceMatcher (difflib) -/

/-- One row of the `find_longest_match` dynamic program of
`difflib.SequenceMatcher`: scanning character `c` (row `i` of `a`),
reading run lengths from the previous row `oldJ` and writing the new
row, updating the best block `(besti, bestj, bestsize)` exactly when a
strictly longer run appears (Python updates only on `k > bestsize`). -/
def flmRow (b : List Char) (oldJ : List Nat) (c : Char) (i : Nat)
    (best : Nat × Nat × Nat) : (Nat × Nat × Nat) × List Nat :=
  (List.range b.length).foldl
    (fun (acc : (Nat × Nat × Nat) × List Nat) j =>
      if b.getD j ' ' = c then
        let k := (if j = 0 then 0 else oldJ.getD (j - 1) 0) + 1
        let best' := if acc.1.2.2 < k then (i + 1 - k, j + 1 - k, k) else acc.1
        (best', acc.2.set j k)
      else acc)
    (best, List.replicate b.length 0)

/-- `SequenceMatcher.find_longest_match` over whole lists (no junk, no
autojunk): returns `(besti, bestj, bestsize)` of the first longest
matching block, ties resolved exactly as by Python's scan order. -/
def findLongestMatch (a b : List Char) : Nat × Nat × Nat :=
  (a.foldl
    (fun (acc : ((Nat × Nat × Nat) × List Nat) × Nat) c =>
      ((flmRow b acc.1.2 c acc.2 acc.1.1), acc.2 + 1))
    (((0, 0, 0), List.replicate b.length 0), 0)).1.1

/-- Total size of the matching blocks of `SequenceMatcher` (the `M` of
`ratio = 2*M/T`): recursively split around the longest matching block,
as `get_matching_blocks` does.  The recursion is driven by a fuel
argument so that it is structural; every recursive call strictly
shrinks `a.length + b.length`, so the initial fuel
`a.length + b.length` never runs out and the `0` fallback branches are
unreachable. -/
def matchSumF : Nat → List Char → List Char → Nat
  | 0, _, _ => 0
  | fuel + 1, a, b =>
    let r := findLongestMatch a b
    let i := r.1
    let j := r.2.1
    let k := r.2.2
    if k = 0 then 0
    else
      matchSumF fuel (a.take i) (b.take j) + k +
        matchSumF fuel (a.drop (i + k)) (b.drop (j + k))

/-- `M`: the sum of the sizes of all matching blocks of the two lists. -/
def matchSum (a b : List Char) : Nat :=
  matchSumF (a.length + b.length) a b

/-- `SequenceMatcher(None, a, b).ratio() = 2*M/T` (and `1.0` when both
strings are empty), as an exact rational. -/
def ratioOf (a b : String) : ℚ :=
  let T := a.length + b.length
  if T = 0 then 1 else (2 * matchSum a.data b.data : ℚ) / (T : ℚ)

/-- Python's `round(x, 2)` on the exact rational value: banker's
rounding to two decimal places. -/
def round2 (q : ℚ) : ℚ :=
  let x := q * 100
  let fl : ℤ := ⌊x⌋
  let r : ℤ :=
    if x - fl < 1 / 2 then fl
    else if (1 : ℚ) / 2 < x - fl then fl + 1
    else if fl % 2 = 0 then fl else fl + 1
  (r : ℚ) / 100

/-! ### Entity Linker (`layer1_linker/linker.py`) -/

/-- ASCII case folding (`str.lower`, and SQLite's default `LIKE`). -/
def asciiLower (c : Char) : Char :=
  if 'A' ≤ c ∧ c ≤ 'Z' then Char.ofNat (c.toNat + 32) else c

/-- The whitespace characters stripped by `str.strip()`. -/
def pyWhitespace (c : Char) : Bool :=
  c == ' ' || c == '\t' || c == '\n' || c == '\r' || c == '\x0b' || c == '\x0c'

/-- `.lower().strip()` applied to a fragment value before comparison. -/
def normalizeVal (s : String) : String :=
  String.mk
    ((((s.data.map asciiLower).dropWhile pyWhitespace).reverse.dropWhile
      pyWhitespace).reverse)

/-- Decimal digits, least significant first, by repeated division
(fuel-driven so that the recursion is structural; fuel `n + 1` always
suffices since `n / 10 < n` for `n > 0`). -/
def digitsRevF : Nat → Nat → List Nat
  | 0, _ => []
  | _ + 1, 0 => []
  | fuel + 1, n => n % 10 :: digitsRevF fuel (n / 10)

/-- Decimal digits of `n`, most significant first (empty for `0`). -/
def natDigits (n : Nat) : List Nat := (digitsRevF (n + 1) n).reverse

/-- `f"E-{entity_counter:06d}"`: decimal digits of `n`, most
significant first, zero padded on the left to width `w` (longer
numbers are not truncated). -/
def padDigits (w n : Nat) : List Nat :=
  List.replicate (w - (natDigits n).length) 0 ++ natDigits n

/-- The character for one decimal digit. -/
def digitChar (d : Nat) : Char := Char.ofNat (48 + d)

/-- The entity identifier string `E-......` for counter value `n`. -/
def fmtEid (n : Nat) : String :=
  String.mk ('E' :: '-' :: (padDigits 6 n).map digitChar)

/-- One open cluster of the linker: an entry of `entity_groups`
(`entity_id` plus its member fragments, in insertion order). -/
structure Cluster where
  entity_id : String
  members : List Fragment
deriving DecidableEq, Repr

/-- The running state of the `cluster_fragments` loop. -/
structure LinkState where
  entity_groups : List Cluster
  mapping : List (Nat × String × ℚ)
  entity_counter : Nat
deriving DecidableEq, Repr

/-- `max(similarities) if similarities else 0`: the maximum
`SequenceMatcher` ratio between `val` and the normalized value of any
member of the cluster. -/
def maxSim (val : String) (members : List Fragment) : ℚ :=
  (members.map (fun m => ratioOf val (normalizeVal m.value))).foldl max 0

/-- The inner `for eid, group in entity_groups.items()` loop: find the
first cluster whose maximal member similarity reaches the threshold,
append the fragment to it (in place) and report
`(entity_id, round(similarity, 2))`; `none` if no cluster qualifies. -/
def assignFirst (t : ℚ) (val : String) (fr : Fragment) :
    List Cluster → Option (String × ℚ × List Cluster)
  | [] => none
  | g :: gs =>
    if t ≤ maxSim val g.members then
      some (g.entity_id, round2 (maxSim val g.members),
        { g with members := g.members ++ [fr] } :: gs)
    else
      match assignFirst t val fr gs with
      | some (e, c, gs') => some (e, c, g :: gs')
      | none => none

/-- The body of `for i, row in df.iterrows()` in `cluster_fragments`:
skip fragments whose normalized value is empty, otherwise assign to the
first matching cluster or seed a new entity with confidence 1.0. -/
def clusterStep (t : ℚ) (st : LinkState) (ifr : Nat × Fragment) : LinkState :=
  let val := normalizeVal ifr.2.value
  if val = "" then st
  else
    match assignFirst t val ifr.2 st.entity_groups with
    | some (e, c, gs') =>
      { st with entity_groups := gs', mapping := st.mapping ++ [(ifr.1, e, c)] }
    | none =>
      let n := st.entity_counter + 1
      let eid := fmtEid n
      { entity_groups := st.entity_groups ++ [⟨eid, [ifr.2]⟩],
        mapping := st.mapping ++ [(ifr.1, eid, 1)],
        entity_counter := n }

/-- The full `cluster_fragments` loop state after processing the
fragment list (DataFrame rows are indexed `0, 1, ...`). -/
def clusterRun (fragments : List Fragment) (score_threshold : ℚ) : LinkState :=
  fragments.enum.foldl (clusterStep score_threshold) ⟨[], [], 0⟩

/-- `cluster_fragments(fragments, score_threshold)`: the returned
`mapping`, keyed by fragment index, each entry carrying
`{entity_id, confidence}`.  (The annotated DataFrame additionally
returned by the Python function is not modelled.) -/
def cluster_fragments (fragments : List Fragment) (score_threshold : ℚ) :
    List (Nat × String × ℚ) :=
  (clusterRun fragments score_threshold).mapping

/-- Number of distinct entity ids occurring in a linker mapping. -/
def numEntities (mapping : List (Nat × String × ℚ)) : Nat :=
  (mapping.map (fun x => x.2.1)).dedup.length

/-- Average number of mapped fragments per distinct entity of a linker
mapping (`0` for the empty mapping). -/
def avgClusterSize (mapping : List (Nat × String × ℚ)) : ℚ :=
  (mapping.length : ℚ) / (numEntities mapping : ℚ)

/-! ### Entity Store (`layer1_mapper/mapper.py`) -/

/-- A row of the `entities` table. -/
structure EntityRow where
  entity_id : String
  fragment_count : Nat
  confidence : ℚ
  created_at : Nat
  updated_at : Nat
deriving DecidableEq, Repr

/-- A row of the `fragments` table.  `frag_id` models the generated
`f"{eid}-{uuid.uuid4()}"` identifiers by fresh naturals (uuid4 values
are assumed collision-free). -/
structure FragRow where
  frag_id : Nat
  entity_id : String
  frag_type : String
  value : String
  source : String
  confidence : ℚ
  created_at : Nat
deriving DecidableEq, Repr

/-- A row of the `erasures` table (`erasure_id` modelled like `frag_id`). -/
structure ErasureRow where
  erasure_id : Nat
  entity_id : String
  fragments_deleted : Nat
  requested_by : String
  reason : String
  timestamp : Nat
deriving DecidableEq, Repr

/-- The SQLite database of `mapper.py`: the three tables plus the
fresh-identifier counter modelling uuid generation. -/
structure DB where
  entities : List EntityRow
  fragments : List FragRow
  erasures : List ErasureRow
  nextId : Nat
deriving DecidableEq, Repr

/-- The store right after `init_db()`: all tables empty. -/
def emptyDB : DB := ⟨[], [], [], 0⟩

/-- The entry appended to `grouped[eid]` in `save_mapping`:
fragment fields plus the mapping confidence. -/
structure SaveEntry where
  type : String
  value : String
  source : String
  confidence : ℚ
deriving DecidableEq, Repr

/-- The distinct entity ids of a mapping
(`list({v["entity_id"] for v in mapping.values()})`; only membership in
this collection is ever used). -/
def entityIdsOf (mapping : List (Nat × String × ℚ)) : List String :=
  (mapping.map (fun x => x.2.1)).dedup

/-- `grouped.setdefault(eid, []).append(entry)`: append the entry to the
group of `eid`, creating the group at the end on first occurrence. -/
def insertGrouped (g : List (String × List SaveEntry)) (eid : String)
    (e : SaveEntry) : List (String × List SaveEntry) :=
  match g with
  | [] => [(eid, [e])]
  | (k, l) :: rest =>
    if k = eid then (k, l ++ [e]) :: rest
    else (k, l) :: insertGrouped rest eid e

/-- Step 2 of `save_mapping`: group the mapping entries by entity id,
in mapping order, pairing each with `fragments[idx]`.  (Python indexes
`fragments[idx]` directly; out-of-range indices, which would raise,
are given a default here and never arise from linker output.) -/
def groupedOf (mapping : List (Nat × String × ℚ)) (fragments : List Fragment) :
    List (String × List SaveEntry) :=
  mapping.foldl
    (fun acc x =>
      let fr := fragments.getD x.1 ⟨"UNKNOWN", "", "unknown"⟩
      insertGrouped acc x.2.1 ⟨fr.type, fr.value, fr.source, x.2.2⟩)
    []

/-- The fragment rows inserted by `save_mapping`, with fresh ids
starting at `n` and `created_at = ts`. -/
def mkFragRows : List (String × SaveEntry) → Nat → Nat → List FragRow
  | [], _, _ => []
  | (eid, e) :: rest, ts, n =>
    { frag_id := n, entity_id := eid, frag_type := e.type, value := e.value,
      source := e.source, confidence := e.confidence, created_at := ts } ::
      mkFragRows rest ts (n + 1)

/-- The entity row inserted by `save_mapping` for one group. -/
def mkEntityRow (g : String × List SaveEntry) (ts : Nat) : EntityRow :=
  { entity_id := g.1, fragment_count := g.2.length,
    confidence := (g.2.map SaveEntry.confidence).sum / (g.2.length : ℚ),
    created_at := ts, updated_at := ts }

/-- `save_mapping(mapping, fragments)`: delete all fragment and entity
rows of every entity id occurring in the mapping, then insert one fresh
entity row per group (confidence = mean of member confidences,
`fragment_count = len(frag_list)`) and one fragment row per mapping
entry. -/
def save_mapping (mapping : List (Nat × String × ℚ)) (fragments : List Fragment)
    (ts : Nat) (db : DB) : DB :=
  let eids := entityIdsOf mapping
  let grouped := groupedOf mapping fragments
  let pairs := grouped.flatMap (fun g => g.2.map (fun e => (g.1, e)))
  { entities := db.entities.filter (fun e => decide (e.entity_id ∉ eids)) ++
      grouped.map (fun g => mkEntityRow g ts),
    fragments := db.fragments.filter (fun f => decide (f.entity_id ∉ eids)) ++
      mkFragRows pairs ts db.nextId,
    erasures := db.erasures,
    nextId := db.nextId + pairs.length }

/-- `get_entity(entity_id)`: the entity row (with `fragment_count`
recomputed as the number of returned fragment rows) and its fragments,
or `none`. -/
def get_entity (eid : String) (db : DB) : Option (EntityRow × List FragRow) :=
  match db.entities.find? (fun e => e.entity_id == eid) with
  | none => none
  | some e =>
    let frs := db.fragments.filter (fun f => f.entity_id == eid)
    some ({ e with fragment_count := frs.length }, frs)

/-- `delete_fragment(frag_id, requested_by, reason)`: look the fragment
up, delete it, recount the owning entity's fragments; on count zero
delete the entity and append an erasure record with
`fragments_deleted = 1`, otherwise update `fragment_count` and
`updated_at`.  Returns `(ok, entity_id-or-error)` beside the new
store. -/
def delete_fragment (fid : Nat) (requested_by reason : String) (ts : Nat)
    (db : DB) : (Bool × String) × DB :=
  match db.fragments.find? (fun f => f.frag_id == fid) with
  | none => ((false, "Fragment not found"), db)
  | some fr =>
    let eid := fr.entity_id
    let frags' := db.fragments.filter (fun f => !(f.frag_id == fid))
    let newCount := (frags'.filter (fun f => f.entity_id == eid)).length
    if newCount = 0 then
      ((true, eid),
        { entities := db.entities.filter (fun e => !(e.entity_id == eid)),
          fragments := frags',
          erasures := db.erasures ++
            [⟨db.nextId, eid, 1, requested_by, reason, ts⟩],
          nextId := db.nextId + 1 })
    else
      ((true, eid),
        { entities := db.entities.map (fun e =>
            if e.entity_id == eid then
              { e with fragment_count := newCount, updated_at := ts }
            else e),
          fragments := frags', erasures := db.erasures, nextId := db.nextId })

/-- `erase_entity(entity_id, requested_by, reason)`: no-op `(False, 0)`
when the entity does not exist; otherwise delete all its fragments and
the entity row, append one erasure record with the pre-deletion
fragment count, and return `(True, frag_count)`. -/
def erase_entity (eid : String) (requested_by reason : String) (ts : Nat)
    (db : DB) : (Bool × Nat) × DB :=
  if (db.entities.filter (fun e => e.entity_id == eid)).length = 0 then
    ((false, 0), db)
  else
    let fragCount := (db.fragments.filter (fun f => f.entity_id == eid)).length
    ((true, fragCount),
      { entities := db.entities.filter (fun e => !(e.entity_id == eid)),
        fragments := db.fragments.filter (fun f => !(f.entity_id == eid)),
        erasures := db.erasures ++
          [⟨db.nextId, eid, fragCount, requested_by, reason, ts⟩],
        nextId := db.nextId + 1 })

/-- SQLite `LIKE` pattern matching: `%` matches any (possibly empty)
span, `_` exactly one character, every other pattern character matches
one character up to ASCII case.  A `%` consuming a span is equivalent
to matching the remaining pattern against some suffix, hence the
`tails.any`. -/
def likeMatch : List Char → List Char → Bool
  | [], s => s.isEmpty
  | p :: ps, s =>
    if p = '%' then s.tails.any (fun s₂ => likeMatch ps s₂)
    else
      match s with
      | [] => false
      | c :: s' =>
        if p = '_' then likeMatch ps s'
        else (asciiLower p == asciiLower c) && likeMatch ps s'

/-- The row shape produced by `search_entities`
(`SELECT DISTINCT e.entity_id, e.fragment_count, e.confidence, e.created_at`). -/
structure SearchRow where
  entity_id : String
  fragment_count : Nat
  confidence : ℚ
  created_at : Nat
deriving DecidableEq, Repr

/-- Projection of an entity row to the columns selected by
`search_entities`. -/
def toSearchRow (e : EntityRow) : SearchRow :=
  ⟨e.entity_id, e.fragment_count, e.confidence, e.created_at⟩

/-- `ORDER BY e.updated_at DESC`. -/
def sortByUpdatedDesc (l : List EntityRow) : List EntityRow :=
  l.insertionSort (fun a b => b.updated_at ≤ a.updated_at)

/-- `search_entities(query)`: entities joined to a fragment whose
`value` or `frag_type` matches `LIKE '%query%'`, projected to the
selected columns, de-duplicated (`DISTINCT`), ordered by `updated_at`
descending, `LIMIT 50`. -/
def search_entities (query : String) (db : DB) : List SearchRow :=
  let pat := '%' :: (query.data ++ ['%'])
  let matched := db.entities.filter (fun e =>
    db.fragments.any (fun f =>
      f.entity_id == e.entity_id &&
        (likeMatch pat f.value.data || likeMatch pat f.frag_type.data)))
  (((sortByUpdatedDesc matched).map toSearchRow).dedup).take 50

/-! ### Fragment Extractor (`layer1_scanner/scanner.py`) -/

/-- `\w` (ASCII reading): letters, digits, underscore. -/
def wordChar (c : Char) : Bool := c.isAlphanum || c == '_'

/-- The character class `[\w\.-]` of `EMAIL_RE`. -/
def emailChar (c : Char) : Bool := wordChar c || c == '.' || c == '-'

/-- Position of the `\.` of `EMAIL_RE` inside the greedy `[\w\.-]+` run
after `@`: the largest `k ≥ 1` with `R[k] = '.'` followed by a word
character, i.e. the split the backtracking regex engine settles on. -/
def lastDotIdx (R : List Char) : Option Nat :=
  (List.range R.length).reverse.find? (fun k =>
    decide (1 ≤ k) && (R.getD k ' ' == '.') &&
      decide (k + 1 < R.length) && wordChar (R.getD (k + 1) ' '))

/-- Match `EMAIL_RE = [\w\.-]+@[\w\.-]+\.\w+` at the start of `s`,
returning the matched characters and the rest of the input. -/
def matchEmailAt (s : List Char) : Option (List Char × List Char) :=
  let p1 := s.takeWhile emailChar
  if p1.isEmpty then none
  else
    match s.dropWhile emailChar with
    | '@' :: r2 =>
      let R := r2.takeWhile emailChar
      let rest := r2.dropWhile emailChar
      match lastDotIdx R with
      | some k =>
        let B := (R.drop (k + 1)).takeWhile wordChar
        some (p1 ++ '@' :: (R.take (k + 1) ++ B),
          ((R.drop (k + 1)).dropWhile wordChar) ++ rest)
      | none => none
    | _ => none

/-- `EMAIL_RE.finditer`: non-overlapping leftmost matches, resuming
after each match.  Fueled structurally; each step consumes at least one
character, so fuel `s.length + 1` suffices. -/
def emailScan : Nat → List Char → List String
  | 0, _ => []
  | _ + 1, [] => []
  | fuel + 1, s@(_ :: rest) =>
    match matchEmailAt s with
    | some (m, r) => String.mk m :: emailScan fuel r
    | none => emailScan fuel rest

/-- Match `CPR_RE = \b\d{6}-\d{4}\b` at the start of `s`, `prev` being
the character just before `s` (for the left word boundary). -/
def matchCprAt (prev : Option Char) (s : List Char) :
    Option (List Char × List Char) :=
  let d1 := s.take 6
  let mid := s.drop 6
  let d2 := mid.drop 1 |>.take 4
  let after := s.drop 11
  if (match prev with | none => true | some c => !wordChar c) &&
      decide (d1.length = 6) && d1.all Char.isDigit &&
      (mid.getD 0 ' ' == '-') &&
      decide (d2.length = 4) && d2.all Char.isDigit &&
      (match after with | [] => true | c :: _ => !wordChar c) then
    some (s.take 11, after)
  else none

/-- `CPR_RE.finditer`, tracking the previous character for `\b`. -/
def cprScan : Nat → Option Char → List Char → List String
  | 0, _, _ => []
  | _ + 1, _, [] => []
  | fuel + 1, prev, s@(c :: rest) =>
    match matchCprAt prev s with
    | some (m, r) => String.mk m :: cprScan fuel (some (m.getLastD c)) r
    | none => cprScan fuel (some c) rest

/-- The fragments produced by the email-regex detector of `scan_text`. -/
def email_detector (text source : String) : List Fragment :=
  (emailScan (text.data.length + 1) text.data).map
    (fun v => ⟨"EMAIL_ADDRESS", v, source⟩)

/-- The fragments produced by the CPR-regex detector of `scan_text`. -/
def cpr_detector (text source : String) : List Fragment :=
  (cprScan (text.data.length + 1) none text.data).map
    (fun v => ⟨"CPR", v, source⟩)

/-- The outcome of the external NER engine (`analyzer.analyze`): a list
of `(entity_type, start, end)` spans, or the exception it raised.  The
engine itself is an external black box; only its interface is
embedded. -/
def PresidioResult : Type := Except String (List (String × Nat × Nat))

/-- `scan_text(text, source)`: Presidio spans (mapped through
`text[r.start:r.end]`, and swallowed by the `try/except` when the
engine raised) followed by the email-regex and CPR-regex fragments. -/
def scan_text (presidio : PresidioResult) (text source : String) :
    List Fragment :=
  (match presidio with
   | .ok rs => rs.map (fun r =>
       ⟨r.1, String.mk ((text.data.drop r.2.1).take (r.2.2 - r.2.1)), source⟩)
   | .error _ => []) ++
    email_detector text source ++ cpr_detector text source

/-- The count invariant of the spec: every entity row's
`fragment_count` column equals the number of fragment rows whose
`entity_id` references it. -/
def countInvariant (db : DB) : Prop :=
  ∀ e ∈ db.entities,
    e.fragment_count =
      (db.fragments.filter (fun f => f.entity_id == e.entity_id)).length

/-- Well-formedness of generated fragment ids (uuid4 collision
freedom): ids are pairwise distinct and below the freshness counter. -/
def fragIdsOk (db : DB) : Prop :=
  (db.fragments.map FragRow.frag_id).Nodup ∧
    ∀ f ∈ db.fragments, f.frag_id < db.nextId

/-- One mutating store operation of `mapper.py`. -/
inductive StoreOp where
  | save : List (Nat × String × ℚ) → List Fragment → Nat → StoreOp
  | delFrag : Nat → String → String → Nat → StoreOp
  | erase : String → String → String → Nat → StoreOp

/-- Apply one mutating operation to the store (discarding the returned
status, which does not affect the stored state). -/
def applyOp (db : DB) : StoreOp → DB
  | .save m frs ts => save_mapping m frs ts db
  | .delFrag fid rq rs ts => (delete_fragment fid rq rs ts db).2
  | .erase eid rq rs ts => (erase_entity eid rq rs ts db).2

/-- The store after an arbitrary sequence of mutating operations,
starting from the freshly initialised (empty) database. -/
def runOps (ops : List StoreOp) : DB := ops.foldl applyOp emptyDB

/-- All fragments stored as members of some open cluster. -/
def allMembers (gs : List Cluster) : List Fragment :=
  gs.flatMap Cluster.members

/-- Coupling between the linker states of two runs over the same
fragment prefix at thresholds `t1 ≤ t2`: the same fragments are stored
as cluster members, clusters are nonempty, and the low-threshold run
has created at most as many entities. -/
structure Coupled (st1 st2 : LinkState) : Prop where
  mem : ∀ fr : Fragment,
    (fr ∈ allMembers st1.entity_groups ↔ fr ∈ allMembers st2.entity_groups)
  ne1 : ∀ g ∈ st1.entity_groups, g.members ≠ []
  ne2 : ∀ g ∈ st2.entity_groups, g.members ≠ []
  cnt : st1.entity_counter ≤ st2.entity_counter
  len : st1.mapping.length = st2.mapping.length

/-- Run invariant of a single linker pass: the cluster ids are exactly
`E-000001 .. E-<counter>` in creation order, and the mapping mentions
exactly the ids of the open clusters. -/
structure LinkInv (st : LinkState) : Prop where
  eids : st.entity_groups.map Cluster.entity_id =
    (List.range' 1 st.entity_counter).map fmtEid
  mapEids : ∀ s : String,
    (s ∈ st.mapping.map (fun x => x.2.1) ↔
      s ∈ st.entity_groups.map Cluster.entity_id)

/-- Queries free of the SQL `LIKE` wildcard characters. -/
def noWildcards (q : String) : Prop := ∀ c ∈ q.data, c ≠ '%' ∧ c ≠ '_'

/-- Case-insensitive (ASCII) substring containment — the spec's reading
of `LIKE '%query%'`. -/
def containsCI (q s : String) : Prop :=
  (q.data.map asciiLower) <:+: (s.data.map asciiLower)

instance (q s : String) : Decidable (containsCI q s) := by
  unfold containsCI
  exact inferInstance

instance (q : String) : Decidable (noWildcards q) := by
  unfold noWildcards
  exact inferInstance

/-! ### Generic helper lemmas -/

lemma find?_of_filter_singleton {α : Type _} {p : α → Bool} {l : List α} {x : α}
    (h : l.filter p = [x]) : l.find? p = some x := by
  induction l with
  | nil => simp at h
  | cons a l ih =>
    by_cases hp : p a
    · rw [List.filter_cons_of_pos hp] at h
      obtain ⟨rfl, -⟩ := List.cons.inj h
      simp [List.find?_cons, hp]
    · rw [List.filter_cons_of_neg hp] at h
      simp [List.find?_cons, hp, ih h]

/-! ### C10: detector failure isolation in scan_text -/

/-- C10.  For every input text and source, if the NER classifier
detector raises an exception, `scan_text` does not raise and still
returns exactly the fragments produced by the other two detectors (the
email-syntax regex and the national-ID digits-dash-digits regex). -/
theorem scan_text_detector_isolation (err : String) (text source : String) :
    scan_text (.error err) text source =
      email_detector text source ++ cpr_detector text source := by
  simp [scan_text]

/-! ### C8: clustering determinism on the reference input -/

set_option maxRecDepth 4000 in
/-- C8.  Clustering `["alice@example.com", "alice@example.com",
"bob@example.com"]` at threshold `0.85` yields exactly two distinct
entity ids, maps the first two fragments to the same entity id, with
confidence exactly `1.0` for the first and exactly `1.0` (hence
`≈ 1.0`) for the second. -/
theorem cluster_fragments_reference_input :
    cluster_fragments
        [⟨"EMAIL_ADDRESS", "alice@example.com", "a.txt"⟩,
         ⟨"EMAIL_ADDRESS", "alice@example.com", "b.txt"⟩,
         ⟨"EMAIL_ADDRESS", "bob@example.com", "c.txt"⟩] (17 / 20) =
      [(0, "E-000001", 1), (1, "E-000001", 1), (2, "E-000002", 1)] ∧
    numEntities
        (cluster_fragments
          [⟨"EMAIL_ADDRESS", "alice@example.com", "a.txt"⟩,
           ⟨"EMAIL_ADDRESS", "alice@example.com", "b.txt"⟩,
           ⟨"EMAIL_ADDRESS", "bob@example.com", "c.txt"⟩] (17 / 20)) = 2 := by
  have hm1 : matchSum "alice@example.com".data "alice@example.com".data = 17 := by
    decide
  have hm2 : matchSum "bob@example.com".data "alice@example.com".data = 12 := by
    decide
  have h1 : ratioOf "alice@example.com" "alice@example.com" = 1 := by
    simp [ratioOf, hm1]
    norm_num [String.length]
  have h2 : ratioOf "bob@example.com" "alice@example.com" = 3 / 4 := by
    simp [ratioOf, hm2]
    norm_num [String.length]
  have hn1 : normalizeVal "alice@example.com" = "alice@example.com" := by decide
  have hn2 : normalizeVal "bob@example.com" = "bob@example.com" := by decide
  have hr : round2 1 = 1 := by norm_num [round2]
  have hf1 : fmtEid 1 = "E-000001" := by decide
  have hf2 : fmtEid 2 = "E-000002" := by decide
  have hc1 : ¬ ((17 : ℚ) / 20 ≤ 3 / 4) := by norm_num
  have hc2 : ((0 : ℚ) ≤ 3 / 4) := by norm_num
  have hc3 : ((17 : ℚ) / 20 ≤ 1) := by norm_num
  have hmain :
      cluster_fragments
          [⟨"EMAIL_ADDRESS", "alice@example.com", "a.txt"⟩,
           ⟨"EMAIL_ADDRESS", "alice@example.com", "b.txt"⟩,
           ⟨"EMAIL_ADDRESS", "bob@example.com", "c.txt"⟩] (17 / 20) =
        [(0, "E-000001", 1), (1, "E-000001", 1), (2, "E-000002", 1)] := by
    simp [cluster_fragments, clusterRun, clusterStep, assignFirst, maxSim,
      List.enum, List.enumFrom, hn1, hn2, h1, h2, hr, hf1, hf2, max_def,
      hc1, hc2, hc3]
  exact ⟨hmain, by rw [hmain]; decide⟩

/-! ### C3: atomic full erasure -/

/-- C3.  For an entity present in the store with `N` fragment rows,
`erase_entity` deletes exactly its fragment rows and its entity row,
appends exactly one erasure record with `fragments_deleted = N`, and
returns `(true, N)`; for an id with no entity row it changes nothing
and returns `(false, 0)`. -/
theorem erase_entity_atomic (eid requested_by reason : String) (ts : Nat)
    (db : DB) :
    ((∃ e ∈ db.entities, e.entity_id = eid) →
      erase_entity eid requested_by reason ts db =
        ((true, (db.fragments.filter (fun f => f.entity_id == eid)).length),
          ⟨db.entities.filter (fun e => !(e.entity_id == eid)),
           db.fragments.filter (fun f => !(f.entity_id == eid)),
           db.erasures ++ [⟨db.nextId, eid,
             (db.fragments.filter (fun f => f.entity_id == eid)).length,
             requested_by, reason, ts⟩],
           db.nextId + 1⟩)) ∧
    ((¬ ∃ e ∈ db.entities, e.entity_id = eid) →
      erase_entity eid requested_by reason ts db = ((false, 0), db)) := by
  constructor
  · intro h
    obtain ⟨e, he, heq⟩ := h
    have hne : (db.entities.filter (fun e => e.entity_id == eid)).length ≠ 0 := by
      intro h0
      rw [List.length_eq_zero, List.filter_eq_nil_iff] at h0
      exact h0 e he (by simp [heq])
    simp only [erase_entity, if_neg hne]
  · intro h
    have h0 : (db.entities.filter (fun e => e.entity_id == eid)).length = 0 := by
      rw [List.length_eq_zero, List.filter_eq_nil_iff]
      intro a ha hpa
      exact h ⟨a, ha, by simpa using hpa⟩
    simp only [erase_entity, if_pos h0]

/-- Witness for C3: a store with one entity owning two fragments;
erasing it returns `(true, 2)` and leaves only the erasure record;
erasing the same id again in the resulting store returns `(false, 0)`
and changes nothing. -/
theorem erase_entity_atomic_witness :
    erase_entity "E-000001" "dpo" "gdpr" 5
        ⟨[⟨"E-000001", 2, 1, 0, 0⟩],
         [⟨0, "E-000001", "T", "a", "s", 1, 0⟩,
          ⟨1, "E-000001", "T", "b", "s", 1, 0⟩], [], 2⟩ =
      ((true, 2), ⟨[], [], [⟨2, "E-000001", 2, "dpo", "gdpr", 5⟩], 3⟩) ∧
    erase_entity "E-000001" "dpo" "gdpr" 6
        ⟨[], [], [⟨2, "E-000001", 2, "dpo", "gdpr", 5⟩], 3⟩ =
      ((false, 0), ⟨[], [], [⟨2, "E-000001", 2, "dpo", "gdpr", 5⟩], 3⟩) :=
  ⟨((erase_entity_atomic "E-000001" "dpo" "gdpr" 5
      ⟨[⟨"E-000001", 2, 1, 0, 0⟩],
       [⟨0, "E-000001", "T", "a", "s", 1, 0⟩,
        ⟨1, "E-000001", "T", "b", "s", 1, 0⟩], [], 2⟩).1 (by decide)).trans
      (by decide),
   (erase_entity_atomic "E-000001" "dpo" "gdpr" 6
      ⟨[], [], [⟨2, "E-000001", 2, "dpo", "gdpr", 5⟩], 3⟩).2 (by decide)⟩

/-! ### C5: cascade-delete on last fragment -/

/-- C5.  For an entity with exactly one fragment (the fragment ids and
entity-ownership being as recorded in the store), `delete_fragment` on
that fragment succeeds returning the owning entity id, after which
`get_entity` reports the entity absent, and exactly one erasure record
with `fragments_deleted = 1` has been appended. -/
theorem delete_fragment_cascade (f : FragRow) (db : DB)
    (requested_by reason : String) (ts : Nat)
    (h1 : db.fragments.filter (fun g => g.frag_id == f.frag_id) = [f])
    (h2 : db.fragments.filter (fun g => g.entity_id == f.entity_id) = [f]) :
    (delete_fragment f.frag_id requested_by reason ts db).1 =
      (true, f.entity_id) ∧
    get_entity f.entity_id (delete_fragment f.frag_id requested_by reason ts db).2 =
      none ∧
    (delete_fragment f.frag_id requested_by reason ts db).2.erasures =
      db.erasures ++ [⟨db.nextId, f.entity_id, 1, requested_by, reason, ts⟩] := by
  have hfind : db.fragments.find? (fun g => g.frag_id == f.frag_id) = some f :=
    find?_of_filter_singleton h1
  have hcnt : ((db.fragments.filter (fun g => !(g.frag_id == f.frag_id))).filter
      (fun g => g.entity_id == f.entity_id)).length = 0 := by
    rw [List.filter_comm, h2]
    simp
  simp only [delete_fragment, hfind, hcnt, if_pos]
  refine ⟨by trivial, ?_, by trivial⟩
  have hnone : (db.entities.filter
      (fun e => !(e.entity_id == f.entity_id))).find?
        (fun e => e.entity_id == f.entity_id) = none := by
    rw [List.find?_eq_none]
    intro x hx
    have hkept := (List.mem_filter.mp hx).2
    simp only [Bool.not_eq_true'] at hkept
    simp [hkept]
  simp only [get_entity, hnone]

/-- Witness for C5: one entity, one fragment, deleting the fragment. -/
theorem delete_fragment_cascade_witness :
    (delete_fragment 0 "user" "manual" 7
        ⟨[⟨"E-000001", 1, 1, 0, 0⟩],
         [⟨0, "E-000001", "T", "v", "s", 1, 0⟩], [], 1⟩).1 = (true, "E-000001") ∧
    get_entity "E-000001"
      (delete_fragment 0 "user" "manual" 7
        ⟨[⟨"E-000001", 1, 1, 0, 0⟩],
         [⟨0, "E-000001", "T", "v", "s", 1, 0⟩], [], 1⟩).2 = none ∧
    (delete_fragment 0 "user" "manual" 7
        ⟨[⟨"E-000001", 1, 1, 0, 0⟩],
         [⟨0, "E-000001", "T", "v", "s", 1, 0⟩], [], 1⟩).2.erasures =
      [] ++ [⟨1, "E-000001", 1, "user", "manual", 7⟩] :=
  delete_fragment_cascade ⟨0, "E-000001", "T", "v", "s", 1, 0⟩
    ⟨[⟨"E-000001", 1, 1, 0, 0⟩], [⟨0, "E-000001", "T", "v", "s", 1, 0⟩], [], 1⟩
    "user" "manual" 7 (by decide) (by decide)

/-! ### C7: created_at across re-saves -/

/-- C7 (amended).  `save_mapping` deletes and re-inserts the entity
row, so a later save touching an existing entity id resets BOTH its
timestamps to the time of that save: every entity row whose id occurs
in the saved mapping carries `created_at = updated_at = ts` afterwards
(the original `created_at` is not preserved). -/
theorem save_mapping_resets_timestamps (m : List (Nat × String × ℚ))
    (frs : List Fragment) (ts : Nat) (db : DB) :
    ∀ e ∈ (save_mapping m frs ts db).entities, e.entity_id ∈ entityIdsOf m →
      e.created_at = ts ∧ e.updated_at = ts := by
  intro e he hmem
  simp only [save_mapping, List.mem_append] at he
  rcases he with he | he
  · have hkept := (List.mem_filter.mp he).2
    rw [decide_eq_true_eq] at hkept
    exact absurd hmem hkept
  · obtain ⟨g, hg, rfl⟩ := List.mem_map.mp he
    simp [mkEntityRow]

/-- Witness for C7's amended theorem: the single entity inserted by a
concrete save carries both timestamps equal to the save time. -/
theorem save_mapping_resets_timestamps_witness :
    (⟨"E-000001", 1, 1, 3, 3⟩ : EntityRow).created_at = 3 ∧
    (⟨"E-000001", 1, 1, 3, 3⟩ : EntityRow).updated_at = 3 :=
  save_mapping_resets_timestamps [(0, "E-000001", 1)]
    [⟨"EMAIL_ADDRESS", "a@b.c", "s"⟩] 3 emptyDB ⟨"E-000001", 1, 1, 3, 3⟩
    (by simp [save_mapping, emptyDB, entityIdsOf, groupedOf, insertGrouped,
      mkFragRows, mkEntityRow])
    (by decide)

/-- Counterexample to C7 as stated: an entity saved at time `0` and
re-saved (same mapping and fragments) at time `1` ends with
`created_at = 1`, not its original `created_at = 0` — `save_mapping`
does not keep `created_at` fixed at first insert. -/
theorem save_mapping_created_at_cex :
    ((save_mapping [(0, "E-000001", 1)] [⟨"EMAIL_ADDRESS", "a@b.c", "s"⟩] 0
        emptyDB).entities.map (fun e => (e.entity_id, e.created_at)) =
      [("E-000001", 0)]) ∧
    ((save_mapping [(0, "E-000001", 1)] [⟨"EMAIL_ADDRESS", "a@b.c", "s"⟩] 1
        (save_mapping [(0, "E-000001", 1)] [⟨"EMAIL_ADDRESS", "a@b.c", "s"⟩] 0
          emptyDB)).entities.map (fun e => (e.entity_id, e.created_at)) =
      [("E-000001", 1)]) := by
  constructor <;>
    simp [save_mapping, emptyDB, entityIdsOf, groupedOf, insertGrouped,
      mkFragRows, mkEntityRow]

/-! ### C2: idempotent re-save -/

lemma insertGrouped_keys_mem (k eid : String) (e : SaveEntry) :
    ∀ g : List (String × List SaveEntry),
      (k ∈ (insertGrouped g eid e).map Prod.fst ↔ k ∈ g.map Prod.fst ∨ k = eid)
  | [] => by simp [insertGrouped]
  | (k', l) :: rest => by
    by_cases h : k' = eid
    · subst h
      simp [insertGrouped]
      tauto
    · simp [insertGrouped, h, insertGrouped_keys_mem k eid e rest]
      tauto

lemma groupedOf_aux_keys (k : String) (frs : List Fragment) :
    ∀ (l : List (Nat × String × ℚ)) (acc : List (String × List SaveEntry)),
      (k ∈ ((l.foldl (fun acc x =>
          let fr := frs.getD x.1 ⟨"UNKNOWN", "", "unknown"⟩
          insertGrouped acc x.2.1 ⟨fr.type, fr.value, fr.source, x.2.2⟩)
            acc).map Prod.fst)
        ↔ k ∈ acc.map Prod.fst ∨ k ∈ l.map (fun x => x.2.1))
  | [], acc => by simp
  | x :: l, acc => by
    simp only [List.foldl_cons, List.map_cons, List.mem_cons]
    rw [groupedOf_aux_keys k frs l _, insertGrouped_keys_mem]
    tauto

lemma groupedOf_keys_mem (k : String) (m : List (Nat × String × ℚ))
    (frs : List Fragment) :
    k ∈ (groupedOf m frs).map Prod.fst ↔ k ∈ entityIdsOf m := by
  unfold groupedOf entityIdsOf
  rw [groupedOf_aux_keys]
  simp [List.mem_dedup]

lemma mkFragRows_length : ∀ (pairs : List (String × SaveEntry)) (ts n : Nat),
    (mkFragRows pairs ts n).length = pairs.length
  | [], _, _ => rfl
  | (eid, e) :: rest, ts, n => by
    simp [mkFragRows, mkFragRows_length rest ts (n + 1)]

lemma mkFragRows_entity_mem :
    ∀ (pairs : List (String × SaveEntry)) (ts n : Nat) (r : FragRow),
      r ∈ mkFragRows pairs ts n → r.entity_id ∈ pairs.map Prod.fst
  | [], _, _, r => by simp [mkFragRows]
  | (eid, e) :: rest, ts, n, r => by
    simp only [mkFragRows, List.mem_cons, List.map_cons]
    rintro (rfl | h)
    · left
      rfl
    · right
      exact mkFragRows_entity_mem rest ts (n + 1) r h

lemma filter_self_idem {α : Type _} (p : α → Bool) (X : List α) :
    (X.filter p).filter p = X.filter p := by
  rw [List.filter_filter]
  exact List.filter_congr (fun x _ => Bool.and_self _)

lemma save_twice_entities (m : List (Nat × String × ℚ)) (frs : List Fragment)
    (db : DB) (ts1 ts2 : Nat) :
    (save_mapping m frs ts2 (save_mapping m frs ts1 db)).entities =
      db.entities.filter (fun e => decide (e.entity_id ∉ entityIdsOf m)) ++
        (groupedOf m frs).map (fun g => mkEntityRow g ts2) := by
  have hnil : ((groupedOf m frs).map (fun g => mkEntityRow g ts1)).filter
      (fun e => decide (e.entity_id ∉ entityIdsOf m)) = [] := by
    rw [List.filter_eq_nil_iff]
    intro e he
    obtain ⟨g, hg, rfl⟩ := List.mem_map.mp he
    have hk : g.1 ∈ entityIdsOf m :=
      (groupedOf_keys_mem g.1 m frs).mp (List.mem_map.mpr ⟨g, hg, rfl⟩)
    simp [mkEntityRow, hk]
  show (((db.entities.filter _) ++ _).filter _) ++ _ = _
  rw [List.filter_append, filter_self_idem, hnil, List.append_nil]

lemma save_twice_fragments (m : List (Nat × String × ℚ)) (frs : List Fragment)
    (db : DB) (ts1 ts2 : Nat) :
    (save_mapping m frs ts2 (save_mapping m frs ts1 db)).fragments =
      db.fragments.filter (fun f => decide (f.entity_id ∉ entityIdsOf m)) ++
        mkFragRows ((groupedOf m frs).flatMap
          (fun g => g.2.map (fun e => (g.1, e)))) ts2
          (save_mapping m frs ts1 db).nextId := by
  have hnil : (mkFragRows ((groupedOf m frs).flatMap
        (fun g => g.2.map (fun e => (g.1, e)))) ts1 db.nextId).filter
      (fun f => decide (f.entity_id ∉ entityIdsOf m)) = [] := by
    rw [List.filter_eq_nil_iff]
    intro r hr
    have hmem := mkFragRows_entity_mem _ _ _ r hr
    have hk : r.entity_id ∈ entityIdsOf m := by
      obtain ⟨pr, hpr, heq⟩ := List.mem_map.mp hmem
      obtain ⟨g, hg, hpr2⟩ := List.mem_flatMap.mp hpr
      obtain ⟨e, he, rfl⟩ := List.mem_map.mp hpr2
      rw [← heq]
      exact (groupedOf_keys_mem g.1 m frs).mp (List.mem_map.mpr ⟨g, hg, rfl⟩)
    simp [hk]
  show (((db.fragments.filter _) ++ _).filter _) ++ _ = _
  rw [List.filter_append, filter_self_idem, hnil, List.append_nil]

/-- C2.  Saving the same `(mapping, fragments)` pair twice in a row
leaves each saved entity's `fragment_count`, and the total number of
stored fragment rows, identical to what the single save produced:
re-saving does not duplicate fragments. -/
theorem save_mapping_idempotent (m : List (Nat × String × ℚ))
    (frs : List Fragment) (db : DB) (ts1 ts2 : Nat) :
    (∀ eid ∈ entityIdsOf m,
      ((save_mapping m frs ts2 (save_mapping m frs ts1 db)).entities.find?
          (fun e => e.entity_id == eid)).map EntityRow.fragment_count =
        ((save_mapping m frs ts1 db).entities.find?
          (fun e => e.entity_id == eid)).map EntityRow.fragment_count) ∧
    (save_mapping m frs ts2 (save_mapping m frs ts1 db)).fragments.length =
      (save_mapping m frs ts1 db).fragments.length := by
  constructor
  · intro eid hmem
    rw [save_twice_entities m frs db ts1 ts2]
    have hfind : ∀ ts : Nat,
        ((db.entities.filter
            (fun e => decide (e.entity_id ∉ entityIdsOf m)) ++
          (groupedOf m frs).map (fun g => mkEntityRow g ts)).find?
            (fun e => e.entity_id == eid)).map EntityRow.fragment_count =
          ((groupedOf m frs).find? (fun g => g.1 == eid)).map
            (fun g => g.2.length) := by
      intro ts
      rw [List.find?_append]
      have hnoneA : (db.entities.filter
          (fun e => decide (e.entity_id ∉ entityIdsOf m))).find?
            (fun e => e.entity_id == eid) = none := by
        rw [List.find?_eq_none]
        intro x hx
        have hkept := (List.mem_filter.mp hx).2
        rw [decide_eq_true_eq] at hkept
        simp only [beq_iff_eq]
        intro hcontra
        exact hkept (hcontra ▸ hmem)
      rw [hnoneA]
      rw [List.find?_map]
      simp only [Option.or, Option.map_map]
      rfl
    rw [hfind ts2, show (save_mapping m frs ts1 db).entities =
      db.entities.filter (fun e => decide (e.entity_id ∉ entityIdsOf m)) ++
        (groupedOf m frs).map (fun g => mkEntityRow g ts1) from rfl, hfind ts1]
  · rw [save_twice_fragments m frs db ts1 ts2]
    simp only [save_mapping, List.length_append, mkFragRows_length]

/-- Witness for C2: one entity, one fragment, saved twice. -/
theorem save_mapping_idempotent_witness :
    ((save_mapping [(0, "E-000001", 1)] [⟨"EMAIL_ADDRESS", "a@b.c", "s"⟩] 9
        (save_mapping [(0, "E-000001", 1)] [⟨"EMAIL_ADDRESS", "a@b.c", "s"⟩] 4
          emptyDB)).entities.find?
        (fun e => e.entity_id == "E-000001")).map EntityRow.fragment_count =
      ((save_mapping [(0, "E-000001", 1)] [⟨"EMAIL_ADDRESS", "a@b.c", "s"⟩] 4
          emptyDB).entities.find?
        (fun e => e.entity_id == "E-000001")).map EntityRow.fragment_count ∧
    (save_mapping [(0, "E-000001", 1)] [⟨"EMAIL_ADDRESS", "a@b.c", "s"⟩] 9
        (save_mapping [(0, "E-000001", 1)] [⟨"EMAIL_ADDRESS", "a@b.c", "s"⟩] 4
          emptyDB)).fragments.length =
      (save_mapping [(0, "E-000001", 1)] [⟨"EMAIL_ADDRESS", "a@b.c", "s"⟩] 4
          emptyDB).fragments.length :=
  ⟨(save_mapping_idempotent [(0, "E-000001", 1)]
      [⟨"EMAIL_ADDRESS", "a@b.c", "s"⟩] emptyDB 4 9).1 "E-000001" (by decide),
   (save_mapping_idempotent [(0, "E-000001", 1)]
      [⟨"EMAIL_ADDRESS", "a@b.c", "s"⟩] emptyDB 4 9).2⟩

/-! ### C1: the fragment-count invariant -/

lemma insertGrouped_keys_nodup (eid : String) (e : SaveEntry) :
    ∀ g : List (String × List SaveEntry), (g.map Prod.fst).Nodup →
      ((insertGrouped g eid e).map Prod.fst).Nodup
  | [], _ => by simp [insertGrouped]
  | (k', l) :: rest, hnd => by
    rw [List.map_cons, List.nodup_cons] at hnd
    by_cases h : k' = eid
    · subst h
      simpa [insertGrouped, List.nodup_cons] using hnd
    · rw [show insertGrouped ((k', l) :: rest) eid e =
        (k', l) :: insertGrouped rest eid e by simp [insertGrouped, h]]
      rw [List.map_cons, List.nodup_cons]
      refine ⟨?_, insertGrouped_keys_nodup eid e rest hnd.2⟩
      rw [insertGrouped_keys_mem]
      push_neg
      exact ⟨hnd.1, h⟩

lemma groupedOf_aux_nodup (frs : List Fragment) :
    ∀ (l : List (Nat × String × ℚ)) (acc : List (String × List SaveEntry)),
      (acc.map Prod.fst).Nodup →
      (((l.foldl (fun acc x =>
          let fr := frs.getD x.1 ⟨"UNKNOWN", "", "unknown"⟩
          insertGrouped acc x.2.1 ⟨fr.type, fr.value, fr.source, x.2.2⟩)
            acc).map Prod.fst)).Nodup := by
  intro l
  induction l with
  | nil => exact fun acc h => h
  | cons x l ih =>
    intro acc h
    simp only [List.foldl_cons]
    exact ih _ (insertGrouped_keys_nodup _ _ acc h)

lemma groupedOf_keys_nodup (m : List (Nat × String × ℚ)) (frs : List Fragment) :
    ((groupedOf m frs).map Prod.fst).Nodup := by
  unfold groupedOf
  exact groupedOf_aux_nodup frs m [] (by simp)

lemma mkFragRows_count (eid : String) :
    ∀ (pairs : List (String × SaveEntry)) (ts n : Nat),
      ((mkFragRows pairs ts n).filter (fun r => r.entity_id == eid)).length =
        (pairs.filter (fun pr => pr.1 == eid)).length
  | [], _, _ => rfl
  | (k, e) :: rest, ts, n => by
    by_cases h : k = eid <;>
      simp [mkFragRows, List.filter_cons, h, mkFragRows_count eid rest ts (n + 1)]

lemma flat_pairs_count_zero (eid : String)
    (grouped : List (String × List SaveEntry))
    (h : eid ∉ grouped.map Prod.fst) :
    ((grouped.flatMap (fun g => g.2.map (fun e => (g.1, e)))).filter
      (fun pr => pr.1 == eid)).length = 0 := by
  rw [List.length_eq_zero, List.filter_eq_nil_iff]
  intro pr hpr
  obtain ⟨g, hg, hpr2⟩ := List.mem_flatMap.mp hpr
  obtain ⟨e, he, rfl⟩ := List.mem_map.mp hpr2
  simp only [beq_iff_eq]
  intro hcontra
  exact h (hcontra ▸ List.mem_map.mpr ⟨g, hg, rfl⟩)

lemma flat_pairs_count (eid : String) (fl : List SaveEntry) :
    ∀ grouped : List (String × List SaveEntry),
      (grouped.map Prod.fst).Nodup → (eid, fl) ∈ grouped →
      ((grouped.flatMap (fun g => g.2.map (fun e => (g.1, e)))).filter
        (fun pr => pr.1 == eid)).length = fl.length
  | [], _, hmem => by simp at hmem
  | (k, l) :: rest, hnd, hmem => by
    rw [List.map_cons, List.nodup_cons] at hnd
    rw [List.flatMap_cons, List.filter_append, List.length_append]
    rcases List.mem_cons.mp hmem with heq | hmem'
    · simp only [Prod.mk.injEq] at heq
      obtain ⟨rfl, rfl⟩ := heq
      have h1 : ((fl.map (fun e => (eid, e))).filter
          (fun pr => pr.1 == eid)).length = fl.length := by
        rw [List.filter_eq_self.mpr, List.length_map]
        intro a ha
        obtain ⟨e, he, rfl⟩ := List.mem_map.mp ha
        simp
      rw [h1, flat_pairs_count_zero eid rest hnd.1]
      omega
    · have hkne : k ≠ eid := by
        intro hk
        subst hk
        exact hnd.1 (List.mem_map.mpr ⟨(k, fl), hmem', rfl⟩)
      have h0 : ((l.map (fun e => (k, e))).filter
          (fun pr => pr.1 == eid)).length = 0 := by
        rw [List.length_eq_zero, List.filter_eq_nil_iff]
        intro a ha
        obtain ⟨e, he, rfl⟩ := List.mem_map.mp ha
        simp [hkne]
      rw [h0, flat_pairs_count eid fl rest hnd.2 hmem']
      omega

lemma countInv_save (db : DB) (hinv : countInvariant db)
    (m : List (Nat × String × ℚ)) (frs : List Fragment) (ts : Nat) :
    countInvariant (save_mapping m frs ts db) := by
  intro e he
  simp only [save_mapping, List.mem_append] at he
  rcases he with he | he
  · have he_mem := (List.mem_filter.mp he).1
    have he_not : e.entity_id ∉ entityIdsOf m := by
      have := (List.mem_filter.mp he).2
      rwa [decide_eq_true_eq] at this
    simp only [save_mapping, List.filter_append, List.length_append]
    have hnew0 : ((mkFragRows ((groupedOf m frs).flatMap
        (fun g => g.2.map (fun e => (g.1, e)))) ts db.nextId).filter
          (fun f => f.entity_id == e.entity_id)).length = 0 := by
      rw [List.length_eq_zero, List.filter_eq_nil_iff]
      intro r hr
      have hmem := mkFragRows_entity_mem _ _ _ r hr
      obtain ⟨pr, hpr, heq⟩ := List.mem_map.mp hmem
      obtain ⟨g, hg, hpr2⟩ := List.mem_flatMap.mp hpr
      obtain ⟨e2, he2, rfl⟩ := List.mem_map.mp hpr2
      have hkeys : r.entity_id ∈ entityIdsOf m := by
        rw [← heq]
        exact (groupedOf_keys_mem g.1 m frs).mp (List.mem_map.mpr ⟨g, hg, rfl⟩)
      simp only [beq_iff_eq]
      intro hcontra
      exact he_not (hcontra ▸ hkeys)
    have hkept : ((db.fragments.filter
        (fun f => decide (f.entity_id ∉ entityIdsOf m))).filter
          (fun f => f.entity_id == e.entity_id)) =
        db.fragments.filter (fun f => f.entity_id == e.entity_id) := by
      rw [List.filter_comm]
      apply List.filter_eq_self.mpr
      intro x hx
      have hx_eid : x.entity_id = e.entity_id := by
        simpa using (List.mem_filter.mp hx).2
      rw [decide_eq_true_eq, hx_eid]
      exact he_not
    rw [hnew0, hkept, Nat.add_zero]
    exact hinv e he_mem
  · obtain ⟨g, hg, rfl⟩ := List.mem_map.mp he
    simp only [save_mapping, List.filter_append, List.length_append]
    have hkeys : g.1 ∈ entityIdsOf m :=
      (groupedOf_keys_mem g.1 m frs).mp (List.mem_map.mpr ⟨g, hg, rfl⟩)
    have hkept0 : ((db.fragments.filter
        (fun f => decide (f.entity_id ∉ entityIdsOf m))).filter
          (fun f => f.entity_id == (mkEntityRow g ts).entity_id)).length = 0 := by
      rw [List.length_eq_zero, List.filter_eq_nil_iff]
      intro x hx
      have hx_not : x.entity_id ∉ entityIdsOf m := by
        simpa using (List.mem_filter.mp hx).2
      simp only [beq_iff_eq]
      intro hcontra
      exact hx_not (by rw [hcontra]; exact hkeys)
    have hnew : ((mkFragRows ((groupedOf m frs).flatMap
        (fun g => g.2.map (fun e => (g.1, e)))) ts db.nextId).filter
          (fun f => f.entity_id == (mkEntityRow g ts).entity_id)).length =
        g.2.length := by
      rw [show (mkEntityRow g ts).entity_id = g.1 from rfl, mkFragRows_count]
      exact flat_pairs_count g.1 g.2 (groupedOf m frs)
        (groupedOf_keys_nodup m frs) hg
    rw [hkept0, hnew]
    show g.2.length = 0 + g.2.length
    omega

lemma countInv_delete (db : DB) (hinv : countInvariant db) (hids : fragIdsOk db)
    (fid : Nat) (rq rs : String) (ts : Nat) :
    countInvariant (delete_fragment fid rq rs ts db).2 := by
  cases hfind : db.fragments.find? (fun f => f.frag_id == fid) with
  | none =>
    simp only [delete_fragment, hfind]
    exact hinv
  | some fr =>
    have hfr_mem := List.mem_of_find?_eq_some hfind
    have hfr_id : fr.frag_id = fid := by simpa using List.find?_some hfind
    have hA : ∀ eid' : String, eid' ≠ fr.entity_id →
        (db.fragments.filter (fun f => !(f.frag_id == fid))).filter
          (fun f => f.entity_id == eid') =
          db.fragments.filter (fun f => f.entity_id == eid') := by
      intro eid' hne
      rw [List.filter_comm]
      apply List.filter_eq_self.mpr
      intro x hx
      have hx_mem := (List.mem_filter.mp hx).1
      have hx_eid : x.entity_id = eid' := by
        simpa using (List.mem_filter.mp hx).2
      simp only [Bool.not_eq_true']
      rcases eq_or_ne x.frag_id fid with hxf | hxf
      · have hx_eq : x = fr :=
          List.inj_on_of_nodup_map hids.1 hx_mem hfr_mem (by rw [hxf, hfr_id])
        rw [hx_eq] at hx_eid
        exact absurd hx_eid.symm hne
      · simp [hxf]
    simp only [delete_fragment, hfind]
    split_ifs with hc
    · intro e he
      have he_mem := (List.mem_filter.mp he).1
      have he_ne : e.entity_id ≠ fr.entity_id := by
        have := (List.mem_filter.mp he).2
        simpa using this
      rw [hA e.entity_id he_ne]
      exact hinv e he_mem
    · intro e' he'
      obtain ⟨e, he_mem, rfl⟩ := List.mem_map.mp he'
      by_cases heq : e.entity_id = fr.entity_id
      · rw [show (e.entity_id == fr.entity_id) = true by simp [heq], if_pos rfl]
        rw [show ({ e with
          fragment_count := ((db.fragments.filter
            (fun f => !(f.frag_id == fid))).filter
              (fun f => f.entity_id == fr.entity_id)).length,
          updated_at := ts } : EntityRow).entity_id = e.entity_id from rfl]
        rw [heq]
      · rw [show (e.entity_id == fr.entity_id) = false by simp [heq], if_neg
          (by simp)]
        rw [hA e.entity_id heq]
        exact hinv e he_mem

lemma countInv_erase (db : DB) (hinv : countInvariant db) (eid rq rs : String)
    (ts : Nat) :
    countInvariant (erase_entity eid rq rs ts db).2 := by
  unfold erase_entity
  split_ifs with hc
  · exact hinv
  · intro e he
    have he_mem := (List.mem_filter.mp he).1
    have he_ne : e.entity_id ≠ eid := by
      have := (List.mem_filter.mp he).2
      simpa using this
    have hcomm : (db.fragments.filter (fun f => !(f.entity_id == eid))).filter
        (fun f => f.entity_id == e.entity_id) =
        db.fragments.filter (fun f => f.entity_id == e.entity_id) := by
      rw [List.filter_comm]
      apply List.filter_eq_self.mpr
      intro x hx
      have hx_eid : x.entity_id = e.entity_id := by
        simpa using (List.mem_filter.mp hx).2
      simp [hx_eid, he_ne]
    rw [hcomm]
    exact hinv e he_mem

lemma mkFragRows_map_id : ∀ (pairs : List (String × SaveEntry)) (ts n : Nat),
    (mkFragRows pairs ts n).map FragRow.frag_id = List.range' n pairs.length
  | [], _, _ => rfl
  | (k, e) :: rest, ts, n => by
    simp only [mkFragRows, List.map_cons, List.length_cons,
      mkFragRows_map_id rest ts (n + 1)]
    rfl

lemma fragIdsOk_save (db : DB) (h : fragIdsOk db)
    (m : List (Nat × String × ℚ)) (frs : List Fragment) (ts : Nat) :
    fragIdsOk (save_mapping m frs ts db) := by
  constructor
  · simp only [save_mapping, List.map_append, mkFragRows_map_id]
    refine List.Nodup.append ?_ (List.nodup_range' _ _) ?_
    · exact (((List.filter_sublist _)).map FragRow.frag_id).nodup h.1
    · rw [List.disjoint_left]
      intro a ha hb
      obtain ⟨f, hf, rfl⟩ := List.mem_map.mp ha
      have h1 : f.frag_id < db.nextId := h.2 f (List.mem_filter.mp hf).1
      rw [List.mem_range'] at hb
      omega
  · intro f hf
    simp only [save_mapping, List.mem_append] at hf ⊢
    rcases hf with hf | hf
    · have := h.2 f (List.mem_filter.mp hf).1
      omega
    · have hmem : f.frag_id ∈ List.range' db.nextId
          (((groupedOf m frs).flatMap
            (fun g => g.2.map (fun e => (g.1, e)))).length) := by
        rw [← mkFragRows_map_id _ ts]
        exact List.mem_map_of_mem _ hf
      rw [List.mem_range'] at hmem
      obtain ⟨i, hi, heq⟩ := hmem
      omega

lemma fragIdsOk_delete (db : DB) (h : fragIdsOk db) (fid : Nat)
    (rq rs : String) (ts : Nat) :
    fragIdsOk (delete_fragment fid rq rs ts db).2 := by
  cases hfind : db.fragments.find? (fun f => f.frag_id == fid) with
  | none =>
    simp only [delete_fragment, hfind]
    exact h
  | some fr =>
    simp only [delete_fragment, hfind]
    split_ifs with hc
    · constructor
      · exact ((List.filter_sublist _).map FragRow.frag_id).nodup h.1
      · intro f hf
        have := h.2 f (List.mem_filter.mp hf).1
        show f.frag_id < db.nextId + 1
        omega
    · constructor
      · exact ((List.filter_sublist _).map FragRow.frag_id).nodup h.1
      · intro f hf
        exact h.2 f (List.mem_filter.mp hf).1

lemma fragIdsOk_erase (db : DB) (h : fragIdsOk db) (eid rq rs : String)
    (ts : Nat) :
    fragIdsOk (erase_entity eid rq rs ts db).2 := by
  unfold erase_entity
  split_ifs with hc
  · exact h
  · constructor
    · exact ((List.filter_sublist _).map FragRow.frag_id).nodup h.1
    · intro f hf
      have := h.2 f (List.mem_filter.mp hf).1
      show f.frag_id < db.nextId + 1
      omega

lemma storeInv_run : ∀ (ops : List StoreOp) (db : DB),
    countInvariant db ∧ fragIdsOk db →
    countInvariant (ops.foldl applyOp db) ∧ fragIdsOk (ops.foldl applyOp db)
  | [], db, h => h
  | op :: ops, db, h => by
    rw [List.foldl_cons]
    refine storeInv_run ops _ ?_
    cases op with
    | save m frs ts =>
      exact ⟨countInv_save db h.1 m frs ts, fragIdsOk_save db h.2 m frs ts⟩
    | delFrag fid rq rs ts =>
      exact ⟨countInv_delete db h.1 h.2 fid rq rs ts,
        fragIdsOk_delete db h.2 fid rq rs ts⟩
    | erase eid rq rs ts =>
      exact ⟨countInv_erase db h.1 eid rq rs ts,
        fragIdsOk_erase db h.2 eid rq rs ts⟩

/-- C1.  After any sequence of mutating store operations
(`save_mapping`, `delete_fragment`, `erase_entity`) starting from the
initialised store, every entity row's `fragment_count` equals the
number of fragment rows whose `entity_id` references that entity. -/
theorem store_count_invariant (ops : List StoreOp) :
    ∀ e ∈ (runOps ops).entities,
      e.fragment_count =
        ((runOps ops).fragments.filter
          (fun f => f.entity_id == e.entity_id)).length := by
  have hbase : countInvariant emptyDB ∧ fragIdsOk emptyDB := by
    constructor
    · intro e he
      simp [emptyDB] at he
    · constructor
      · simp [emptyDB]
      · intro f hf
        simp [emptyDB] at hf
  exact (storeInv_run ops emptyDB hbase).1

/-- Witness for C1: the store after one save of one entity with one
fragment; its entity row counts exactly its one fragment row. -/
theorem store_count_invariant_witness :
    (⟨"E-000001", 1, 1, 0, 0⟩ : EntityRow).fragment_count =
      ((runOps [.save [(0, "E-000001", 1)] [⟨"EMAIL_ADDRESS", "a@b.c", "s"⟩] 0]).fragments.filter
        (fun f => f.entity_id == "E-000001")).length :=
  store_count_invariant [.save [(0, "E-000001", 1)]
      [⟨"EMAIL_ADDRESS", "a@b.c", "s"⟩] 0] ⟨"E-000001", 1, 1, 0, 0⟩
    (by simp [runOps, applyOp, save_mapping, emptyDB, entityIdsOf, groupedOf,
      insertGrouped, mkFragRows, mkEntityRow])

/-! ### C4: threshold monotonicity of the linker -/

lemma ratioOf_nonneg (a b : String) : 0 ≤ ratioOf a b := by
  unfold ratioOf
  dsimp only
  split_ifs
  · norm_num
  · positivity

lemma le_foldl_max (a : ℚ) : ∀ l : List ℚ, a ≤ l.foldl max a
  | [] => le_refl a
  | x :: l => le_trans (le_max_left a x) (le_foldl_max (max a x) l)

lemma mem_le_foldl_max (a x : ℚ) : ∀ l : List ℚ, x ∈ l → x ≤ l.foldl max a
  | [], hx => by simp at hx
  | y :: l, hx => by
    rcases List.mem_cons.mp hx with rfl | hx'
    · exact le_trans (le_max_right a x) (le_foldl_max (max a x) l)
    · exact mem_le_foldl_max (max a y) x l hx'

lemma foldl_max_le_cases (t a : ℚ) :
    ∀ l : List ℚ, t ≤ l.foldl max a → t ≤ a ∨ ∃ x ∈ l, t ≤ x
  | [], h => Or.inl h
  | y :: l, h => by
    rcases foldl_max_le_cases t (max a y) l h with h' | ⟨x, hx, hx'⟩
    · rcases le_max_iff.mp h' with h'' | h''
      · exact Or.inl h''
      · exact Or.inr ⟨y, List.mem_cons_self y l, h''⟩
    · exact Or.inr ⟨x, List.mem_cons_of_mem y hx, hx'⟩

lemma maxSim_nonneg (val : String) (members : List Fragment) :
    0 ≤ maxSim val members :=
  le_foldl_max 0 _

lemma le_maxSim_of_mem (val : String) {m : Fragment} {members : List Fragment}
    (hm : m ∈ members) :
    ratioOf val (normalizeVal m.value) ≤ maxSim val members :=
  mem_le_foldl_max 0 _ _ (List.mem_map_of_mem _ hm)

lemma maxSim_reached (t : ℚ) (val : String) (members : List Fragment)
    (h : t ≤ maxSim val members) :
    t ≤ 0 ∨ ∃ m ∈ members, t ≤ ratioOf val (normalizeVal m.value) := by
  rcases foldl_max_le_cases t 0 _ h with h' | ⟨x, hx, hx'⟩
  · exact Or.inl h'
  · obtain ⟨m, hm, rfl⟩ := List.mem_map.mp hx
    exact Or.inr ⟨m, hm, hx'⟩

lemma assignFirst_eids :
    ∀ {gs : List Cluster} {t : ℚ} {val : String} {fr : Fragment}
      {e : String} {c : ℚ} {gs' : List Cluster},
      assignFirst t val fr gs = some (e, c, gs') →
      gs'.map Cluster.entity_id = gs.map Cluster.entity_id ∧
        e ∈ gs.map Cluster.entity_id := by
  intro gs
  induction gs with
  | nil => intro t val fr e c gs' h; simp [assignFirst] at h
  | cons g gs ih =>
    intro t val fr e c gs' h
    rw [assignFirst] at h
    split_ifs at h with hle
    · simp only [Option.some.injEq, Prod.mk.injEq] at h
      obtain ⟨rfl, rfl, rfl⟩ := h
      simp
    · cases hrec : assignFirst t val fr gs with
      | none => rw [hrec] at h; simp at h
      | some r =>
        obtain ⟨e0, c0, gs0⟩ := r
        rw [hrec] at h
        simp only [Option.some.injEq, Prod.mk.injEq] at h
        obtain ⟨rfl, rfl, rfl⟩ := h
        obtain ⟨h1, h2⟩ := ih hrec
        simp [h1, h2]

lemma assignFirst_none_iff {t : ℚ} {val : String} {fr : Fragment} :
    ∀ {gs : List Cluster},
      (assignFirst t val fr gs = none ↔
        ∀ g ∈ gs, ¬ t ≤ maxSim val g.members)
  | [] => by simp [assignFirst]
  | g :: gs => by
    rw [assignFirst]
    split_ifs with hle
    · simp [hle]
    · cases hrec : assignFirst t val fr gs with
      | none =>
        simp only [Option.map_none]
        have := (@assignFirst_none_iff t val fr gs).mp hrec
        simp only [List.mem_cons]
        constructor
        · rintro - g' (rfl | hg')
          · exact hle
          · exact this g' hg'
        · intro _
          trivial
      | some r =>
        obtain ⟨e0, c0, gs0⟩ := r
        constructor
        · intro h
          simp at h
        · intro hall
          have : assignFirst t val fr gs = none :=
            (@assignFirst_none_iff t val fr gs).mpr
              (fun g' hg' => hall g' (List.mem_cons_of_mem g hg'))
          rw [this] at hrec
          cases hrec

lemma assignFirst_members :
    ∀ {gs : List Cluster} {t : ℚ} {val : String} {fr : Fragment}
      {e : String} {c : ℚ} {gs' : List Cluster},
      assignFirst t val fr gs = some (e, c, gs') →
      ∀ x : Fragment, (x ∈ allMembers gs' ↔ x ∈ allMembers gs ∨ x = fr) := by
  intro gs
  induction gs with
  | nil => intro t val fr e c gs' h; simp [assignFirst] at h
  | cons g gs ih =>
    intro t val fr e c gs' h x
    rw [assignFirst] at h
    split_ifs at h with hle
    · simp only [Option.some.injEq, Prod.mk.injEq] at h
      obtain ⟨rfl, rfl, rfl⟩ := h
      simp only [allMembers, List.flatMap_cons, List.mem_append,
        List.mem_cons, List.mem_singleton]
      tauto
    · cases hrec : assignFirst t val fr gs with
      | none => rw [hrec] at h; simp at h
      | some r =>
        obtain ⟨e0, c0, gs0⟩ := r
        rw [hrec] at h
        simp only [Option.some.injEq, Prod.mk.injEq] at h
        obtain ⟨rfl, rfl, rfl⟩ := h
        have := ih hrec x
        simp only [allMembers, List.flatMap_cons, List.mem_append] at this ⊢
        tauto

lemma assignFirst_nonempty :
    ∀ {gs : List Cluster} {t : ℚ} {val : String} {fr : Fragment}
      {e : String} {c : ℚ} {gs' : List Cluster},
      assignFirst t val fr gs = some (e, c, gs') →
      (∀ g ∈ gs, g.members ≠ []) → ∀ g ∈ gs', g.members ≠ [] := by
  intro gs
  induction gs with
  | nil => intro t val fr e c gs' h; simp [assignFirst] at h
  | cons g gs ih =>
    intro t val fr e c gs' h hne
    rw [assignFirst] at h
    split_ifs at h with hle
    · simp only [Option.some.injEq, Prod.mk.injEq] at h
      obtain ⟨rfl, rfl, rfl⟩ := h
      intro g' hg'
      rcases List.mem_cons.mp hg' with rfl | hg''
      · simp
      · exact hne g' (List.mem_cons_of_mem _ hg'')
    · cases hrec : assignFirst t val fr gs with
      | none => rw [hrec] at h; simp at h
      | some r =>
        obtain ⟨e0, c0, gs0⟩ := r
        rw [hrec] at h
        simp only [Option.some.injEq, Prod.mk.injEq] at h
        obtain ⟨rfl, rfl, rfl⟩ := h
        intro g' hg'
        rcases List.mem_cons.mp hg' with rfl | hg''
        · exact hne g' (List.mem_cons_self _ _)
        · exact ih hrec (fun g'' hg'' =>
            hne g'' (List.mem_cons_of_mem _ hg'')) g' hg''

lemma allMembers_append_one (gs : List Cluster) (e : String) (fr : Fragment) :
    allMembers (gs ++ [⟨e, [fr]⟩]) = allMembers gs ++ [fr] := by
  simp [allMembers]

lemma assign_propagates {t1 t2 : ℚ} (h12 : t1 ≤ t2) {st1 st2 : LinkState}
    (hc : Coupled st1 st2) {val : String} {fr : Fragment}
    (h2 : assignFirst t2 val fr st2.entity_groups ≠ none) :
    assignFirst t1 val fr st1.entity_groups ≠ none := by
  intro h1none
  have h2ex : ∃ g ∈ st2.entity_groups, t2 ≤ maxSim val g.members := by
    by_contra hno
    exact h2 (assignFirst_none_iff.mpr (fun g hg hle => hno ⟨g, hg, hle⟩))
  obtain ⟨g2, hg2, hsim2⟩ := h2ex
  have h1all := assignFirst_none_iff.mp h1none
  rcases maxSim_reached t2 val g2.members hsim2 with ht2 | ⟨m, hm, hrm⟩
  · obtain ⟨m0, hm0⟩ : ∃ m0, m0 ∈ g2.members := by
      cases hmem : g2.members with
      | nil => exact absurd hmem (hc.ne2 g2 hg2)
      | cons a l => exact ⟨a, List.mem_cons_self a l⟩
    have hin2 : m0 ∈ allMembers st2.entity_groups :=
      List.mem_flatMap.mpr ⟨g2, hg2, hm0⟩
    obtain ⟨g1, hg1, hm1⟩ := List.mem_flatMap.mp ((hc.mem m0).mpr hin2)
    exact h1all g1 hg1
      (le_trans (le_trans h12 ht2) (maxSim_nonneg val g1.members))
  · have hin2 : m ∈ allMembers st2.entity_groups :=
      List.mem_flatMap.mpr ⟨g2, hg2, hm⟩
    obtain ⟨g1, hg1, hm1⟩ := List.mem_flatMap.mp ((hc.mem m).mpr hin2)
    exact h1all g1 hg1
      (le_trans h12 (le_trans hrm (le_maxSim_of_mem val hm1)))

lemma coupled_step {t1 t2 : ℚ} (h12 : t1 ≤ t2) {st1 st2 : LinkState}
    (hc : Coupled st1 st2) (ifr : Nat × Fragment) :
    Coupled (clusterStep t1 st1 ifr) (clusterStep t2 st2 ifr) := by
  unfold clusterStep
  dsimp only
  by_cases hval : normalizeVal ifr.2.value = ""
  · rw [if_pos hval, if_pos hval]
    exact hc
  · rw [if_neg hval, if_neg hval]
    cases h1 : assignFirst t1 (normalizeVal ifr.2.value) ifr.2
        st1.entity_groups with
    | none =>
      cases h2 : assignFirst t2 (normalizeVal ifr.2.value) ifr.2
          st2.entity_groups with
      | some r2 =>
        exact absurd h1 (assign_propagates h12 hc (by rw [h2]; simp))
      | none =>
        constructor
        · intro x
          rw [show (⟨st1.entity_groups ++
              [⟨fmtEid (st1.entity_counter + 1), [ifr.2]⟩], _, _⟩ :
                LinkState).entity_groups = st1.entity_groups ++
              [⟨fmtEid (st1.entity_counter + 1), [ifr.2]⟩] from rfl]
          rw [show (⟨st2.entity_groups ++
              [⟨fmtEid (st2.entity_counter + 1), [ifr.2]⟩], _, _⟩ :
                LinkState).entity_groups = st2.entity_groups ++
              [⟨fmtEid (st2.entity_counter + 1), [ifr.2]⟩] from rfl]
          rw [allMembers_append_one, allMembers_append_one]
          simp only [List.mem_append, List.mem_singleton]
          rw [hc.mem x]
        · intro g hg
          rcases List.mem_append.mp hg with hg' | hg'
          · exact hc.ne1 g hg'
          · rw [List.mem_singleton.mp hg']
            simp
        · intro g hg
          rcases List.mem_append.mp hg with hg' | hg'
          · exact hc.ne2 g hg'
          · rw [List.mem_singleton.mp hg']
            simp
        · exact Nat.succ_le_succ hc.cnt
        · simp [hc.len]
    | some r1 =>
      obtain ⟨e1, c1, gs1'⟩ := r1
      cases h2 : assignFirst t2 (normalizeVal ifr.2.value) ifr.2
          st2.entity_groups with
      | some r2 =>
        obtain ⟨e2, c2, gs2'⟩ := r2
        constructor
        · intro x
          simp only [assignFirst_members h1 x, assignFirst_members h2 x,
            hc.mem x]
        · exact assignFirst_nonempty h1 hc.ne1
        · exact assignFirst_nonempty h2 hc.ne2
        · exact hc.cnt
        · simp [hc.len]
      | none =>
        constructor
        · intro x
          rw [show (⟨st2.entity_groups ++
              [⟨fmtEid (st2.entity_counter + 1), [ifr.2]⟩], _, _⟩ :
                LinkState).entity_groups = st2.entity_groups ++
              [⟨fmtEid (st2.entity_counter + 1), [ifr.2]⟩] from rfl]
          rw [allMembers_append_one]
          simp only [List.mem_append, List.mem_singleton,
            assignFirst_members h1 x]
          rw [hc.mem x]
        · exact assignFirst_nonempty h1 hc.ne1
        · intro g hg
          rcases List.mem_append.mp hg with hg' | hg'
          · exact hc.ne2 g hg'
          · rw [List.mem_singleton.mp hg']
            simp
        · exact le_trans hc.cnt (Nat.le_succ _)
        · simp [hc.len]

lemma coupled_run {t1 t2 : ℚ} (h12 : t1 ≤ t2) :
    ∀ (l : List (Nat × Fragment)) {st1 st2 : LinkState},
      Coupled st1 st2 →
      Coupled (l.foldl (clusterStep t1) st1) (l.foldl (clusterStep t2) st2)
  | [], _, _, hc => hc
  | ifr :: l, st1, st2, hc => by
    rw [List.foldl_cons, List.foldl_cons]
    exact coupled_run h12 l (coupled_step h12 hc ifr)

lemma coupled_init : Coupled ⟨[], [], 0⟩ ⟨[], [], 0⟩ := by
  constructor
  · intro x
    exact Iff.rfl
  · intro g hg
    simp [allMembers] at hg
  · intro g hg
    simp [allMembers] at hg
  · exact le_refl 0
  · rfl

lemma digitsRevF_eq_digits : ∀ (fuel n : Nat), n < fuel →
    digitsRevF fuel n = Nat.digits 10 n
  | 0, n, h => absurd h (Nat.not_lt_zero n)
  | fuel + 1, 0, _ => by simp [digitsRevF]
  | fuel + 1, n + 1, h => by
    show (n + 1) % 10 :: digitsRevF fuel ((n + 1) / 10) = _
    rw [Nat.digits_def' (by norm_num : (1 : ℕ) < 10) (Nat.succ_pos n)]
    congr 1
    refine digitsRevF_eq_digits fuel ((n + 1) / 10) ?_
    have hdiv : (n + 1) / 10 < n + 1 :=
      Nat.div_lt_self (Nat.succ_pos n) (by norm_num)
    omega

lemma natDigits_eq (n : Nat) : natDigits n = (Nat.digits 10 n).reverse := by
  unfold natDigits
  rw [digitsRevF_eq_digits (n + 1) n (Nat.lt_succ_self n)]

lemma ofDigits_replicate_zero : ∀ d : Nat,
    Nat.ofDigits 10 (List.replicate d 0) = 0
  | 0 => by simp
  | d + 1 => by
    simp [List.replicate_succ, Nat.ofDigits_cons, ofDigits_replicate_zero d]

lemma padDigits_ne_of_len_lt {a b : Nat}
    (hlt : (natDigits a).length < (natDigits b).length) :
    padDigits 6 a ≠ padDigits 6 b := by
  intro heq
  have hlen : (6 - (natDigits a).length) + (natDigits a).length =
      (6 - (natDigits b).length) + (natDigits b).length := by
    have := congrArg List.length heq
    simpa [padDigits, List.length_append, List.length_replicate] using this
  have hsplit : (6 - (natDigits a).length) =
      (6 - (natDigits b).length) +
        ((natDigits b).length - (natDigits a).length) := by omega
  rw [padDigits, padDigits, hsplit, List.replicate_add,
    List.append_assoc] at heq
  have heq2 : List.replicate
      ((natDigits b).length - (natDigits a).length) 0 ++ natDigits a =
      natDigits b := List.append_cancel_left heq
  have hb : Nat.digits 10 b = Nat.digits 10 a ++ List.replicate
      ((natDigits b).length - (natDigits a).length) 0 := by
    have h3 := congrArg List.reverse heq2
    rw [natDigits_eq a, natDigits_eq b, List.reverse_reverse,
      List.reverse_append, List.reverse_replicate, List.reverse_reverse]
      at h3
    rw [natDigits_eq a, natDigits_eq b]
    exact h3.symm
  have hba : b = a := by
    conv_lhs => rw [← Nat.ofDigits_digits 10 b]
    rw [hb, Nat.ofDigits_append, ofDigits_replicate_zero]
    simp [Nat.ofDigits_digits]
  subst hba
  exact lt_irrefl _ hlt

lemma padDigits_inj {a b : Nat} (h : padDigits 6 a = padDigits 6 b) :
    a = b := by
  rcases Nat.lt_trichotomy (natDigits a).length (natDigits b).length with
    hlt | heqlen | hgt
  · exact absurd h (padDigits_ne_of_len_lt hlt)
  · have hdig : natDigits a = natDigits b := by
      rw [padDigits, padDigits] at h
      exact (List.append_inj h (by simp [heqlen])).2
    have hdig2 : Nat.digits 10 a = Nat.digits 10 b := by
      have h2 := congrArg List.reverse hdig
      rwa [natDigits_eq, natDigits_eq, List.reverse_reverse,
        List.reverse_reverse] at h2
    calc a = Nat.ofDigits 10 (Nat.digits 10 a) :=
        (Nat.ofDigits_digits 10 a).symm
    _ = Nat.ofDigits 10 (Nat.digits 10 b) := by rw [hdig2]
    _ = b := Nat.ofDigits_digits 10 b
  · exact absurd h.symm (padDigits_ne_of_len_lt hgt)

lemma digitChar_inj {d₁ d₂ : Nat} (h₁ : d₁ < 10) (h₂ : d₂ < 10)
    (h : digitChar d₁ = digitChar d₂) : d₁ = d₂ := by
  interval_cases d₁ <;> interval_cases d₂ <;>
    first
    | rfl
    | (exact absurd h (by decide))

lemma map_digitChar_inj : ∀ {l₁ l₂ : List Nat}, (∀ x ∈ l₁, x < 10) →
    (∀ x ∈ l₂, x < 10) → l₁.map digitChar = l₂.map digitChar → l₁ = l₂
  | [], [], _, _, _ => rfl
  | [], _ :: _, _, _, h => by simp at h
  | _ :: _, [], _, _, h => by simp at h
  | x :: l₁, y :: l₂, hx, hy, h => by
    simp only [List.map_cons, List.cons.injEq] at h
    have hxy := digitChar_inj (hx x (List.mem_cons_self x l₁))
      (hy y (List.mem_cons_self y l₂)) h.1
    rw [hxy, map_digitChar_inj (fun z hz => hx z (List.mem_cons_of_mem x hz))
      (fun z hz => hy z (List.mem_cons_of_mem y hz)) h.2]

lemma padDigits_lt (n : Nat) : ∀ x ∈ padDigits 6 n, x < 10 := by
  intro x hx
  rcases List.mem_append.mp hx with hx' | hx'
  · rw [List.eq_of_mem_replicate hx']
    norm_num
  · rw [natDigits_eq] at hx'
    exact Nat.digits_lt_base (by norm_num) (List.mem_reverse.mp hx')

lemma fmtEid_injective : Function.Injective fmtEid := by
  intro a b h
  unfold fmtEid at h
  have hdata := congrArg String.data h
  simp only [List.cons.injEq, true_and] at hdata
  exact padDigits_inj (map_digitChar_inj (padDigits_lt a) (padDigits_lt b)
    hdata)

lemma linkInv_step (t : ℚ) (st : LinkState) (hinv : LinkInv st)
    (ifr : Nat × Fragment) : LinkInv (clusterStep t st ifr) := by
  unfold clusterStep
  dsimp only
  by_cases hval : normalizeVal ifr.2.value = ""
  · rw [if_pos hval]
    exact hinv
  · rw [if_neg hval]
    cases h1 : assignFirst t (normalizeVal ifr.2.value) ifr.2
        st.entity_groups with
    | some r =>
      obtain ⟨e, c, gs'⟩ := r
      obtain ⟨heids, hemem⟩ := assignFirst_eids h1
      refine ⟨?_, ?_⟩
      · show gs'.map Cluster.entity_id =
          (List.range' 1 st.entity_counter).map fmtEid
        rw [heids, hinv.eids]
      · intro s
        show s ∈ (st.mapping ++ [(ifr.1, e, c)]).map (fun x => x.2.1) ↔
          s ∈ gs'.map Cluster.entity_id
        simp only [List.map_append, List.map_cons, List.map_nil,
          List.mem_append, List.mem_singleton]
        rw [heids]
        constructor
        · rintro (hs | rfl)
          · exact (hinv.mapEids s).mp hs
          · exact hemem
        · intro hs
          exact Or.inl ((hinv.mapEids s).mpr hs)
    | none =>
      refine ⟨?_, ?_⟩
      · show (st.entity_groups ++
            [(⟨fmtEid (st.entity_counter + 1), [ifr.2]⟩ : Cluster)]).map
              Cluster.entity_id =
          (List.range' 1 (st.entity_counter + 1)).map fmtEid
        simp only [List.map_append, List.map_cons, List.map_nil]
        rw [hinv.eids, List.range'_concat, List.map_append]
        have harith : 1 + 1 * st.entity_counter = st.entity_counter + 1 := by
          omega
        rw [harith]
        rfl
      · intro s
        show s ∈ ((st.mapping ++
            [(ifr.1, fmtEid (st.entity_counter + 1), 1)]) :
              List (Nat × String × ℚ)).map (fun x => x.2.1) ↔
          s ∈ (st.entity_groups ++
            [(⟨fmtEid (st.entity_counter + 1), [ifr.2]⟩ : Cluster)]).map
              Cluster.entity_id
        simp only [List.map_append, List.map_cons, List.map_nil,
          List.mem_append, List.mem_singleton]
        rw [hinv.mapEids s]

lemma linkInv_run (frs : List Fragment) (t : ℚ) :
    LinkInv (clusterRun frs t) := by
  unfold clusterRun
  generalize frs.enum = l
  have haux : ∀ (l : List (Nat × Fragment)) (st : LinkState), LinkInv st →
      LinkInv (l.foldl (clusterStep t) st) := by
    intro l
    induction l with
    | nil => exact fun st h => h
    | cons x l ih =>
      intro st h
      rw [List.foldl_cons]
      exact ih _ (linkInv_step t st h x)
  refine haux l ⟨[], [], 0⟩ ?_
  constructor
  · simp
  · intro s
    simp

lemma numEntities_eq_counter (frs : List Fragment) (t : ℚ) :
    numEntities (cluster_fragments frs t) =
      (clusterRun frs t).entity_counter := by
  have hinv := linkInv_run frs t
  unfold numEntities cluster_fragments
  have hsetEq : ((clusterRun frs t).mapping.map (fun x => x.2.1)).toFinset =
      (((List.range' 1 (clusterRun frs t).entity_counter).map
        fmtEid)).toFinset := by
    apply Finset.ext
    intro s
    simp only [List.mem_toFinset]
    rw [hinv.mapEids s, hinv.eids]
  have hnodup : ((List.range' 1
      (clusterRun frs t).entity_counter).map fmtEid).Nodup :=
    (List.nodup_range' _ _).map fmtEid_injective
  rw [← List.card_toFinset, hsetEq, List.toFinset_card_of_nodup hnodup,
    List.length_map, List.length_range']

lemma counter_pos_of_mapping_ne (frs : List Fragment) (t : ℚ)
    (h : cluster_fragments frs t ≠ []) :
    1 ≤ (clusterRun frs t).entity_counter := by
  have hinv := linkInv_run frs t
  obtain ⟨x, hx⟩ := List.exists_mem_of_ne_nil _ h
  have hmem : x.2.1 ∈ (clusterRun frs t).mapping.map (fun x => x.2.1) :=
    List.mem_map_of_mem _ hx
  rw [hinv.mapEids, hinv.eids] at hmem
  obtain ⟨n, hn, -⟩ := List.mem_map.mp hmem
  rw [List.mem_range'] at hn
  obtain ⟨i, hi, -⟩ := hn
  omega

/-- C4.  For a fixed fragment list and thresholds `t1 ≤ t2`, clustering
at the lower threshold produces no more distinct entity ids, and the
average number of mapped fragments per entity is at least as large. -/
theorem cluster_threshold_monotone (frs : List Fragment) (t1 t2 : ℚ)
    (h12 : t1 ≤ t2) :
    numEntities (cluster_fragments frs t1) ≤
      numEntities (cluster_fragments frs t2) ∧
    avgClusterSize (cluster_fragments frs t2) ≤
      avgClusterSize (cluster_fragments frs t1) := by
  have hc := (coupled_run h12 frs.enum coupled_init).cnt
  have hlen := (coupled_run h12 frs.enum coupled_init).len
  have h1 := numEntities_eq_counter frs t1
  have h2 := numEntities_eq_counter frs t2
  constructor
  · rw [h1, h2]
    exact hc
  · unfold avgClusterSize
    rw [h1, h2]
    have hlen2 : (cluster_fragments frs t2).length =
        (cluster_fragments frs t1).length := hlen.symm
    rw [hlen2]
    by_cases hF : (cluster_fragments frs t1).length = 0
    · rw [hF]
      norm_num
    · have hne : cluster_fragments frs t1 ≠ [] := by
        intro hnil
        apply hF
        rw [hnil]
        rfl
      have hpos1 := counter_pos_of_mapping_ne frs t1 hne
      have hcc : (clusterRun frs t1).entity_counter ≤
          (clusterRun frs t2).entity_counter := hc
      apply div_le_div_of_nonneg_left
      · positivity
      · exact_mod_cast hpos1
      · exact_mod_cast hcc

/-- Witness for C4: the reference fragment list at thresholds `0.5` and
`0.85` (at `0.5` the bob fragment joins the alice cluster). -/
theorem cluster_threshold_monotone_witness :
    ((1 : ℚ) / 2 ≤ 17 / 20) ∧
    (numEntities (cluster_fragments
        [⟨"EMAIL_ADDRESS", "alice@example.com", "a.txt"⟩,
         ⟨"EMAIL_ADDRESS", "alice@example.com", "b.txt"⟩,
         ⟨"EMAIL_ADDRESS", "bob@example.com", "c.txt"⟩] (1 / 2)) ≤
      numEntities (cluster_fragments
        [⟨"EMAIL_ADDRESS", "alice@example.com", "a.txt"⟩,
         ⟨"EMAIL_ADDRESS", "alice@example.com", "b.txt"⟩,
         ⟨"EMAIL_ADDRESS", "bob@example.com", "c.txt"⟩] (17 / 20)) ∧
    avgClusterSize (cluster_fragments
        [⟨"EMAIL_ADDRESS", "alice@example.com", "a.txt"⟩,
         ⟨"EMAIL_ADDRESS", "alice@example.com", "b.txt"⟩,
         ⟨"EMAIL_ADDRESS", "bob@example.com", "c.txt"⟩] (17 / 20)) ≤
      avgClusterSize (cluster_fragments
        [⟨"EMAIL_ADDRESS", "alice@example.com", "a.txt"⟩,
         ⟨"EMAIL_ADDRESS", "alice@example.com", "b.txt"⟩,
         ⟨"EMAIL_ADDRESS", "bob@example.com", "c.txt"⟩] (1 / 2))) :=
  ⟨by norm_num,
   cluster_threshold_monotone
     [⟨"EMAIL_ADDRESS", "alice@example.com", "a.txt"⟩,
      ⟨"EMAIL_ADDRESS", "alice@example.com", "b.txt"⟩,
      ⟨"EMAIL_ADDRESS", "bob@example.com", "c.txt"⟩] (1 / 2) (17 / 20)
     (by norm_num)⟩

/-! ### C6: entity id uniqueness -/

/-- C6 (amended).  Entity ids assigned by the linker are unique WITHIN
one scan pass: in a single `cluster_fragments` run, distinct clusters
always receive distinct entity ids.  (Across passes the counter
restarts, so ids collide; see the counterexample.) -/
theorem cluster_entity_ids_nodup (frs : List Fragment) (t : ℚ) :
    ((clusterRun frs t).entity_groups.map Cluster.entity_id).Nodup := by
  rw [(linkInv_run frs t).eids]
  exact (List.nodup_range' _ _).map fmtEid_injective

/-- Counterexample to C6 as stated: the entity counter restarts at
every `cluster_fragments` call, so a second scan pass assigns
`E-000001` to a cluster holding the fragment `"zzz"` even though the
store already holds an entity `E-000001` from the first pass whose only
fragment is `"alice"` — the same id denotes two different clusters
across passes. -/
theorem cluster_entity_ids_cross_pass_cex :
    cluster_fragments [⟨"PERSON", "alice", "a.txt"⟩] (17 / 20) =
      [(0, "E-000001", 1)] ∧
    cluster_fragments [⟨"PERSON", "zzz", "b.txt"⟩] (17 / 20) =
      [(0, "E-000001", 1)] ∧
    (save_mapping (cluster_fragments [⟨"PERSON", "alice", "a.txt"⟩] (17 / 20))
        [⟨"PERSON", "alice", "a.txt"⟩] 0 emptyDB).entities.map
          EntityRow.entity_id = ["E-000001"] ∧
    (save_mapping (cluster_fragments [⟨"PERSON", "alice", "a.txt"⟩] (17 / 20))
        [⟨"PERSON", "alice", "a.txt"⟩] 0 emptyDB).fragments.map
          FragRow.value = ["alice"] ∧
    "zzz" ≠ "alice" := by
  have hn1 : normalizeVal "alice" = "alice" := by decide
  have hn2 : normalizeVal "zzz" = "zzz" := by decide
  have hf1 : fmtEid 1 = "E-000001" := by decide
  have hcl1 : cluster_fragments [⟨"PERSON", "alice", "a.txt"⟩] (17 / 20) =
      [(0, "E-000001", 1)] := by
    simp [cluster_fragments, clusterRun, clusterStep, assignFirst,
      List.enum, List.enumFrom, hn1, hf1]
  have hcl2 : cluster_fragments [⟨"PERSON", "zzz", "b.txt"⟩] (17 / 20) =
      [(0, "E-000001", 1)] := by
    simp [cluster_fragments, clusterRun, clusterStep, assignFirst,
      List.enum, List.enumFrom, hn2, hf1]
  refine ⟨hcl1, hcl2, ?_, ?_, by decide⟩
  · rw [hcl1]
    simp [save_mapping, emptyDB, entityIdsOf, groupedOf, insertGrouped,
      mkFragRows, mkEntityRow]
  · rw [hcl1]
    simp [save_mapping, emptyDB, entityIdsOf, groupedOf, insertGrouped,
      mkFragRows, mkEntityRow]

/-! ### C9: search semantics -/

lemma likeMatch_lit : ∀ (p : List Char), (∀ c ∈ p, c ≠ '%' ∧ c ≠ '_') →
    ∀ s : List Char,
      (likeMatch p s = true ↔ p.map asciiLower = s.map asciiLower)
  | [], _, s => by
    cases s <;> simp [likeMatch]
  | c :: p, hw, s => by
    have hc := hw c (List.mem_cons_self c p)
    have hw' : ∀ c' ∈ p, c' ≠ '%' ∧ c' ≠ '_' :=
      fun c' hc' => hw c' (List.mem_cons_of_mem c hc')
    cases s with
    | nil => simp [likeMatch, hc.1]
    | cons d s' =>
      rw [likeMatch.eq_def]
      dsimp only
      rw [if_neg hc.1, if_neg hc.2]
      simp only [List.map_cons, List.cons.injEq]
      rw [Bool.and_eq_true, beq_iff_eq, likeMatch_lit p hw' s']

lemma likeMatch_percent (ps s : List Char) :
    likeMatch ('%' :: ps) s = true ↔
      ∃ s₂, s₂ <:+ s ∧ likeMatch ps s₂ = true := by
  rw [likeMatch.eq_def]
  dsimp only
  rw [if_pos rfl]
  simp [List.any_eq_true, List.mem_tails]

lemma likeMatch_lit_percent : ∀ (q : List Char),
    (∀ c ∈ q, c ≠ '%' ∧ c ≠ '_') → ∀ s : List Char,
      (likeMatch (q ++ ['%']) s = true ↔
        ∃ s₁, s₁ <+: s ∧ q.map asciiLower = s₁.map asciiLower)
  | [], _, s => by
    rw [List.nil_append, likeMatch_percent]
    constructor
    · intro _
      exact ⟨[], List.nil_prefix, rfl⟩
    · intro _
      exact ⟨[], List.nil_suffix, by simp [likeMatch]⟩
  | c :: q, hw, s => by
    have hc := hw c (List.mem_cons_self c q)
    have hw' : ∀ c' ∈ q, c' ≠ '%' ∧ c' ≠ '_' :=
      fun c' hc' => hw c' (List.mem_cons_of_mem c hc')
    cases s with
    | nil =>
      rw [List.cons_append, likeMatch.eq_def]
      dsimp only
      rw [if_neg hc.1]
      simp only [Bool.false_eq_true, false_iff]
      rintro ⟨s₁, hs₁, hmap⟩
      rw [List.prefix_nil.mp hs₁] at hmap
      simp at hmap
    | cons d s' =>
      rw [List.cons_append, likeMatch.eq_def]
      dsimp only
      rw [if_neg hc.1, if_neg hc.2,
        Bool.and_eq_true, beq_iff_eq, likeMatch_lit_percent q hw' s']
      constructor
      · rintro ⟨hcd, s₁', hs₁', hmap⟩
        exact ⟨d :: s₁', List.cons_prefix_cons.mpr ⟨rfl, hs₁'⟩,
          by simp [hmap, hcd]⟩
      · rintro ⟨s₁, hs₁, hmap⟩
        cases s₁ with
        | nil => simp at hmap
        | cons d' t =>
          obtain ⟨rfl, ht⟩ := List.cons_prefix_cons.mp hs₁
          simp only [List.map_cons, List.cons.injEq] at hmap
          exact ⟨hmap.1, t, ht, hmap.2⟩

lemma likeMatch_contains_iff (q s : List Char)
    (hw : ∀ c ∈ q, c ≠ '%' ∧ c ≠ '_') :
    likeMatch ('%' :: (q ++ ['%'])) s = true ↔
      (q.map asciiLower) <:+: (s.map asciiLower) := by
  rw [likeMatch_percent]
  constructor
  · rintro ⟨s₂, hs₂, hm⟩
    obtain ⟨s₁, hs₁, hmap⟩ := (likeMatch_lit_percent q hw s₂).mp hm
    rw [List.infix_iff_prefix_suffix]
    refine ⟨s₂.map asciiLower, ?_, hs₂.map _⟩
    rw [hmap]
    exact hs₁.map _
  · intro hinf
    rw [List.infix_iff_prefix_suffix] at hinf
    obtain ⟨t, hpre, hsuf⟩ := hinf
    obtain ⟨u, hu⟩ := hsuf
    obtain ⟨u', t', hsplit, hu', ht'⟩ := List.map_eq_append_iff.mp hu.symm
    obtain ⟨r, hr⟩ := hpre
    have hmap_t' : t'.map asciiLower = q.map asciiLower ++ r := by
      rw [ht', ← hr]
    obtain ⟨q'', r', hsplit2, hq'', hr'⟩ := List.map_eq_append_iff.mp hmap_t'
    refine ⟨t', ⟨u', hsplit.symm ▸ rfl⟩, ?_⟩
    refine (likeMatch_lit_percent q hw t').mpr ⟨q'', ?_, hq''.symm⟩
    exact ⟨r', hsplit2.symm⟩

/-- C9 (amended).  For every query WITHOUT SQL `LIKE` wildcard
characters, `search_entities` returns exactly the distinct entities
owning at least one fragment whose `value` or `frag_type` contains the
query as an ASCII-case-insensitive substring, ordered by `updated_at`
descending and bounded to at most 50 rows.  (For queries containing
`%` or `_` the `LIKE` semantics diverge from substring containment;
see the counterexample.) -/
theorem search_entities_substring (q : String) (db : DB)
    (hw : noWildcards q) :
    search_entities q db =
      ((sortByUpdatedDesc (db.entities.filter (fun e =>
          db.fragments.any (fun f =>
            f.entity_id == e.entity_id &&
              (decide (containsCI q f.value) ||
               decide (containsCI q f.frag_type)))))).map
        toSearchRow).dedup.take 50 := by
  unfold search_entities
  dsimp only
  have hstr : ∀ s : String,
      likeMatch ('%' :: (q.data ++ ['%'])) s.data =
        decide (containsCI q s) := by
    intro s
    by_cases hcs : containsCI q s
    · rw [(likeMatch_contains_iff q.data s.data hw).mpr hcs]
      simp [hcs]
    · cases hlm : likeMatch ('%' :: (q.data ++ ['%'])) s.data
      · simp [hcs]
      · exact absurd ((likeMatch_contains_iff q.data s.data hw).mp hlm) hcs
  have hpred : (fun e : EntityRow => db.fragments.any (fun f =>
      f.entity_id == e.entity_id &&
        (likeMatch ('%' :: (q.data ++ ['%'])) f.value.data ||
         likeMatch ('%' :: (q.data ++ ['%'])) f.frag_type.data))) =
      (fun e : EntityRow => db.fragments.any (fun f =>
        f.entity_id == e.entity_id &&
          (decide (containsCI q f.value) ||
           decide (containsCI q f.frag_type)))) := by
    funext e
    congr 1
    funext f
    rw [hstr f.value, hstr f.frag_type]
  rw [hpred]

/-- Counterexample to C9 as stated: `search_entities` uses SQL `LIKE`,
whose `_` wildcard matches any single character, so the query `"a_c"`
returns the entity owning the fragment `"abc"` even though `"a_c"` is
not a case-insensitive substring of any stored fragment value or
type. -/
theorem search_like_wildcard_cex :
    (search_entities "a_c"
        ⟨[⟨"E-000001", 1, 1, 0, 0⟩],
         [⟨0, "E-000001", "T", "abc", "s", 1, 0⟩], [], 1⟩).map
      SearchRow.entity_id = ["E-000001"] ∧
    ¬ containsCI "a_c" "abc" ∧ ¬ containsCI "a_c" "T" := by
  refine ⟨by decide, by decide, by decide⟩

/-- Witness for C9's amended theorem at a concrete store and query. -/
theorem search_entities_substring_witness :
    noWildcards "ali" ∧
    search_entities "ali"
        ⟨[⟨"E-000001", 1, 1, 0, 5⟩, ⟨"E-000002", 1, 1, 0, 9⟩],
         [⟨0, "E-000001", "EMAIL_ADDRESS", "Alice@x.com", "s", 1, 0⟩,
          ⟨1, "E-000002", "T", "bob", "s", 1, 0⟩], [], 2⟩ =
      ((sortByUpdatedDesc
          (([⟨"E-000001", 1, 1, 0, 5⟩, ⟨"E-000002", 1, 1, 0, 9⟩] :
              List EntityRow).filter (fun e =>
            ([⟨0, "E-000001", "EMAIL_ADDRESS", "Alice@x.com", "s", 1, 0⟩,
              ⟨1, "E-000002", "T", "bob", "s", 1, 0⟩] :
                List FragRow).any (fun f =>
              f.entity_id == e.entity_id &&
                (decide (containsCI "ali" f.value) ||
                 decide (containsCI "ali" f.frag_type)))))).map
        toSearchRow).dedup.take 50 :=
  ⟨by decide,
   search_entities_substring "ali"
     ⟨[⟨"E-000001", 1, 1, 0, 5⟩, ⟨"E-000002", 1, 1, 0, 9⟩],
      [⟨0, "E-000001", "EMAIL_ADDRESS", "Alice@x.com", "s", 1, 0⟩,
       ⟨1, "E-000002", "T", "bob", "s", 1, 0⟩], [], 2⟩ (by decide)⟩
